import Mathlib

/-!
# ScaleLLM serving core: paged KV cache, response handler, scheduler queue

A shallow embedding of `src/memory/kv_cache.cpp`, `src/scheduler/response_handler.cpp`,
the priority queue of `src/scheduler/continuous_batching_scheduler.h` and the prompt
template of `src/models/huggingface/internlm.h`, followed by the theorems that settle the
specification's claims about them.

## Conventions of the embedding

* A method that mutates or may throw is a function from the object state to the pair
  (state afterwards, outcome); a `const` method hands the state back unchanged.
* A torch tensor is read at the logical level. The two cache tensors are functions of
  their multi-index (`key_cache_ : [num_blocks, num_heads, head_size / x, block_size, x]`,
  `value_cache_ : [num_blocks, num_heads, head_size, block_size]`), together with the
  dimension sizes that bound the valid indices. A batch of key or value vectors
  (`[n, num_heads, head_size]`) is the list of its `n` rows, each row being its elements
  in row-major order; `reshape` keeps the row-major order, so it is the identity on rows.
  A row whose element count is not that of the slice it is copied to is rejected; the
  broadcasting of smaller tensors by `index_put_` is left out.
* The exceptions of the tensor library are outcomes: an index outside its dimension, a
  reshape or copy between different element counts, a reshape to `{-1, ...}` whose other
  extents multiply to 0, `torch::stack` of no tensor.
* `DCHECK_EQ` checks only in a build without `NDEBUG`; whether it does is the parameter
  `DCHECK_IS_ON` of `set_kv_cache`.
* Machine integers are `Int`/`Nat`; C++ `/` and `%` on signed operands are `Int.tdiv` and
  `Int.tmod`, and a narrowing conversion to `int32_t` is `toInt32`. In the write path a
  division by a zero `block_size_` or `x_` is an outcome of its own.
* The thread pool runs the closures handed to it one at a time, in any order; what leaves
  the response handler (calls to the block manager, to the pool, to callbacks) is recorded
  in a trace.
-/

namespace llm

/-! ## `memory/kv_cache.cpp` -/

/-- Failures of the cache accessors: a failed `DCHECK_EQ`, and the exceptions thrown by the
tensor library or the standard library underneath. -/
inductive KVError where
  /-- a `DCHECK_EQ` at the head of `set_kv_cache` does not hold -/
  | check_failed
  /-- an integer index lies outside the indexed dimension -/
  | index_out_of_range
  /-- `reshape`, or the copy of `index_put_`, meets a tensor of another element count -/
  | invalid_shape
  /-- `torch::stack` is given no tensor at all -/
  | empty_stack
  /-- `std::vector::reserve` is given a length it cannot hold -/
  | length_error
  /-- an integer division by zero in the write loop -/
  | division_by_zero
  deriving DecidableEq, Repr

deriving instance DecidableEq for Except

/-- The cache object. `num_blocks` is `key_cache.size(0) = value_cache.size(0)`; the other
four sizes are the members that the constructor reads off the tensors. -/
structure KVCache (α : Type) where
  num_blocks : Nat
  num_heads_ : Nat
  head_size_ : Nat
  block_size_ : Nat
  x_ : Nat
  key_cache_ : Nat → Nat → Nat → Nat → Nat → α
  value_cache_ : Nat → Nat → Nat → Nat → α

/-- Narrowing conversion of a 64-bit value to `int32_t` (two's complement wrap-around). -/
def toInt32 (v : Int) : Int := (v + 2 ^ 31) % 2 ^ 32 - 2 ^ 31

/-- An integer index applied to a dimension of the given size, as the tensor library does it:
`-size ≤ i < 0` counts from the end, anything outside `[-size, size)` is an error. -/
def torch_index (i : Int) (size : Nat) : Option Nat :=
  if 0 ≤ i ∧ i < size then some i.toNat
  else if -(size : Int) ≤ i ∧ i < 0 then some (i + size).toNat
  else none

namespace KVCache

variable {α : Type}

/-- Number of slots of the cache: `num_blocks * block_size`. -/
def capacity (c : KVCache α) : Nat := c.num_blocks * c.block_size_

/-- `key_cache_.index_put_({b, Slice(), Slice(), o, Slice()}, src)` where `src` is a key row
viewed as `[num_heads, head_size / x, x]`: element `(h, j, k)` of that view is element
`(h * (head_size / x) + j) * x + k` of the row. -/
def key_index_put (c : KVCache α) (b o : Nat) (src : List α) : KVCache α :=
  { c with
    key_cache_ := fun b' h j o' k =>
      if b' = b ∧ o' = o ∧ h < c.num_heads_ ∧ j < c.head_size_ / c.x_ ∧ k < c.x_ then
        src.getD ((h * (c.head_size_ / c.x_) + j) * c.x_ + k) (c.key_cache_ b' h j o' k)
      else c.key_cache_ b' h j o' k }

/-- `value_cache_.index_put_({b, Slice(), Slice(), o}, src)` where `src` is a value row of
shape `[num_heads, head_size]`. -/
def value_index_put (c : KVCache α) (b o : Nat) (src : List α) : KVCache α :=
  { c with
    value_cache_ := fun b' h d o' =>
      if b' = b ∧ o' = o ∧ h < c.num_heads_ ∧ d < c.head_size_ then
        src.getD (h * c.head_size_ + d) (c.value_cache_ b' h d o')
      else c.value_cache_ b' h d o' }

/-- Body of the loop of `set_kv_cache` for row `i`: address computation, `keys[i]`,
`values[i]`, the reshape of the key, then the two `index_put_` calls in source order. The
divisions `slot_id / block_size_` and `head_size_ / x_` fault on a zero divisor, and
`reshape({-1, head_size_ / x_, x_})` throws when `head_size_ / x_ * x_` is 0, as it does for
a row of another element count. An exception leaves the state as it was when it was
thrown. -/
def set_kv_cache_body (c : KVCache α) (keys values : List (List α)) (slot_id : Int) (i : Nat) :
    KVCache α × Except KVError Unit :=
  if c.block_size_ = 0 then (c, .error .division_by_zero)
  else
    let block_id := slot_id.tdiv c.block_size_
    let block_offset := slot_id.tmod c.block_size_
    match keys[i]?, values[i]? with
    | some key, some value =>
      if c.x_ = 0 then (c, .error .division_by_zero)
      else if c.head_size_ / c.x_ * c.x_ = 0 ∨
          key.length ≠ c.num_heads_ * (c.head_size_ / c.x_ * c.x_) then
        (c, .error .invalid_shape)
      else
        match torch_index block_id c.num_blocks, torch_index block_offset c.block_size_ with
        | some b, some o =>
          let c1 := c.key_index_put b o key
          if value.length ≠ c.num_heads_ * c.head_size_ then (c1, .error .invalid_shape)
          else (c1.value_index_put b o value, .ok ())
        | _, _ => (c, .error .index_out_of_range)
    | _, _ => (c, .error .index_out_of_range)

/-- The `for` loop of `set_kv_cache`, over the slot ids still to be written, `i` being the
row index of the first of them. -/
def set_kv_cache_loop (keys values : List (List α)) :
    List Int → Nat → KVCache α → KVCache α × Except KVError Unit
  | [], _, c => (c, .ok ())
  | slot_id :: rest, i, c =>
    match set_kv_cache_body c keys values slot_id i with
    | (c1, .ok _) => set_kv_cache_loop keys values rest (i + 1) c1
    | (c1, .error e) => (c1, .error e)

/-- `KVCache::set_kv_cache(slot_ids, keys, values)`. `DCHECK_IS_ON` tells the build: the two
`DCHECK_EQ` check in a build without `NDEBUG` and are compiled out in a build with it. -/
def set_kv_cache (c : KVCache α) (DCHECK_IS_ON : Bool) (slot_ids : List Int)
    (keys values : List (List α)) : KVCache α × Except KVError Unit :=
  if DCHECK_IS_ON = true ∧ slot_ids.length ≠ keys.length then (c, .error .check_failed)
  else if DCHECK_IS_ON = true ∧ slot_ids.length ≠ values.length then (c, .error .check_failed)
  else set_kv_cache_loop keys values slot_ids 0 c

/-- The key vector held at block `b`, offset `o`:
`key_cache_.index({b, Slice(), Slice(), o, Slice()})`, a `[num_heads, head_size / x, x]`
tensor, in row-major order. -/
def key_at (c : KVCache α) (b o : Nat) : List α :=
  (List.range (c.num_heads_ * (c.head_size_ / c.x_ * c.x_))).map fun p =>
    c.key_cache_ b (p / (c.head_size_ / c.x_ * c.x_)) (p / c.x_ % (c.head_size_ / c.x_)) o
      (p % c.x_)

/-- The value vector held at block `b`, offset `o`:
`value_cache_.index({b, Slice(), Slice(), o})`, in row-major order. -/
def value_at (c : KVCache α) (b o : Nat) : List α :=
  (List.range (c.num_heads_ * c.head_size_)).map fun p =>
    c.value_cache_ b (p / c.head_size_) (p % c.head_size_) o

/-- Body of the loop of `get_kv_cache`: the key and the value gathered for one slot id. The
key slice is reshaped to `{num_heads_, head_size_}`, which needs the same element count and
keeps the row-major order. -/
def get_kv_cache_body (c : KVCache α) (slot_id : Int) : Except KVError (List α × List α) :=
  let block_id := slot_id.tdiv c.block_size_
  let block_offset := slot_id.tmod c.block_size_
  match torch_index block_id c.num_blocks, torch_index block_offset c.block_size_ with
  | some b, some o =>
    if c.num_heads_ * (c.head_size_ / c.x_ * c.x_) ≠ c.num_heads_ * c.head_size_ then
      .error .invalid_shape
    else .ok (c.key_at b o, c.value_at b o)
  | _, _ => .error .index_out_of_range

/-- The `for` loop of `get_kv_cache`: the gathered keys and values, in the order of the
slot ids. -/
def get_kv_cache_loop (c : KVCache α) :
    List Int → Except KVError (List (List α) × List (List α))
  | [] => .ok ([], [])
  | slot_id :: rest =>
    match get_kv_cache_body c slot_id with
    | .error e => .error e
    | .ok (key, value) =>
      match get_kv_cache_loop c rest with
      | .error e => .error e
      | .ok (keys, values) => .ok (key :: keys, value :: values)

/-- `KVCache::get_kv_cache(slot_ids)`, a `const` method. `torch::stack` rejects an empty
list of tensors. -/
def get_kv_cache (c : KVCache α) (slot_ids : List Int) :
    KVCache α × Except KVError (List (List α) × List (List α)) :=
  match get_kv_cache_loop c slot_ids with
  | .error e => (c, .error e)
  | .ok (keys, values) =>
    if keys.isEmpty then (c, .error .empty_stack) else (c, .ok (keys, values))

/-- The loop of `get_kv_cache(block_table, context_len)` after `n` iterations: the slot ids
pushed so far, or `none` once `block_ids[i / block_size_]` reads past the block table. -/
def build_slot_ids (c : KVCache α) (block_ids : List Int) : Nat → Option (List Int)
  | 0 => some []
  | i + 1 =>
    match build_slot_ids c block_ids i, block_ids[i / c.block_size_]? with
    | some slot_ids, some block_id =>
      let block_offset := toInt32 ((i % c.block_size_ : Nat) : Int)
      let slot_id := toInt32 (block_id * (c.block_size_ : Int) + block_offset)
      some (slot_ids ++ [slot_id])
    | _, _ => none

/-- `KVCache::get_kv_cache(block_table, context_len)`, a `const` method. -/
def get_kv_cache_block_table (c : KVCache α) (block_table : List Int) (context_len : Int) :
    KVCache α × Except KVError (List (List α) × List (List α)) :=
  if context_len < 0 then (c, .error .length_error)
  else
    match build_slot_ids c block_table context_len.toNat with
    | none => (c, .error .index_out_of_range)
    | some slot_ids => c.get_kv_cache slot_ids

/-- Two cache states whose tensors have the same sizes. -/
def SameDims (c c' : KVCache α) : Prop :=
  c'.num_blocks = c.num_blocks ∧ c'.num_heads_ = c.num_heads_ ∧ c'.head_size_ = c.head_size_ ∧
    c'.block_size_ = c.block_size_ ∧ c'.x_ = c.x_

end KVCache

/-! ## Request and sequence data (`request/request.h`, `request/sequence.h`) -/

/-- Modelled from the spec: the priority class of a request (`request/request.h` is not among
the sources). The spec names the three classes HIGH, MEDIUM and LOW. -/
inductive RequestPriority where
  | HIGH
  | MEDIUM
  | LOW
  deriving DecidableEq, Repr

/-- Position of a priority class in the enumeration: HIGH comes first. -/
def RequestPriority.rank : RequestPriority → Nat
  | .HIGH => 0
  | .MEDIUM => 1
  | .LOW => 2

/-- Modelled from the spec: the finish reason of a sequence (`request/sequence.h` is not among
the sources); the spec names NONE, STOP and LENGTH. -/
inductive FinishReason where
  | NONE
  | STOP
  | LENGTH
  deriving DecidableEq, Repr

/-- Modelled from the spec: the status handed to the finish callback (its header is not
among the sources): either OK or an error with its message. -/
inductive Status where
  | ok
  | error (message : String)
  deriving DecidableEq, Repr

/-- Modelled from the spec: the default-constructed status `Status()`, which carries no
error. -/
def Status.default : Status := .ok

/-- Modelled from the spec: the tokenizer collaborator (not among the sources), which turns a
range of token ids into text. -/
structure Tokenizer where
  decode : List Nat → String

/-- Modelled from the spec: the per-stream ledger `Sequence` (`request/sequence.h` is not
among the sources): the append-only token list, the offset up to which text was delivered,
the finish reason, and whether generation has finished. -/
structure Sequence where
  tokens : List Nat
  output_offset : Nat
  finish_reason : FinishReason
  is_finished : Bool
  deriving DecidableEq, Repr

/-- `Sequence::num_tokens()`. -/
def Sequence.num_tokens (seq : Sequence) : Nat := seq.tokens.length

/-- Modelled from the spec: the tokens that `Sequence::decode_delta_text(end, tokenizer)`
converts (`request/sequence.cpp` is not among the sources): those buffered since the last
delivery, from `output_offset` up to `end`. -/
def Sequence.delta_tokens (seq : Sequence) (end_ : Nat) : List Nat :=
  (seq.tokens.take end_).drop seq.output_offset

/-- Modelled from the spec: `Sequence::decode_delta_text(end, tokenizer)`
(`request/sequence.cpp` is not among the sources): the text of the buffered tokens, and the
sequence with its output offset moved up to `end`. -/
def Sequence.decode_delta_text (seq : Sequence) (end_ : Nat) (tokenizer : Tokenizer) :
    String × Sequence :=
  (tokenizer.decode (seq.delta_tokens end_),
    { seq with output_offset := max seq.output_offset end_ })

/-- Modelled from the spec: a client's generation job `Request` (`request/request.h` is not
among the sources): identity, priority class, arrival timestamp, streaming flag, its
sequences (addresses of `Sequence` objects), and the status it was marked with when it was
finished. The callback `on_finish` is observed through the event trace. -/
structure Request where
  id : Nat
  priority : RequestPriority
  created_time : Nat
  stream : Bool
  sequences : List Nat
  status : Status
  deriving DecidableEq, Repr

/-! ## `scheduler/response_handler.cpp` -/

/-- The two closures that `ResponseHandler` hands to its thread pool, with what they
capture (the tokenizer is the handler's own and is passed when the closure runs). -/
inductive Task where
  /-- the closure of `on_request_finish`, owning the request -/
  | finish_request (request : Request)
  /-- the closure of `on_sequence_stream`: `seq`, `end = num_tokens`, `finish_reason` -/
  | stream_sequence (seq : Nat) (end_ : Nat) (finish_reason : FinishReason)
  deriving DecidableEq, Repr

/-- Calls that leave the response handler, in the order they are made. -/
inductive Event where
  /-- `block_manager_->release_slots_for_request(request)` -/
  | release_slots_for_request (request : Nat)
  /-- `response_threadpool_.schedule(task)` -/
  | schedule (task : Task)
  /-- `request->on_finish(output, finish_reason, status)` -/
  | on_finish (request : Nat) (output : String) (finish_reason : FinishReason) (status : Status)
  /-- `seq->stream_delta(delta, finish_reason)` -/
  | stream_delta (seq : Nat) (delta : String) (finish_reason : FinishReason)
  /-- a failed `GCHECK`, at which the task ends -/
  | check_failure
  deriving DecidableEq, Repr

/-- The events that the handler's own methods produce, none of which a task produces. -/
def Event.from_handler : Event → Prop
  | .release_slots_for_request _ => True
  | .schedule _ => True
  | _ => False

/-- What the response handler acts on: the sequences behind the `Sequence*` pointers, the
tasks scheduled on `response_threadpool_` and not yet run, and the trace of calls made. -/
structure HandlerState where
  seqs : Nat → Sequence
  response_threadpool_ : List Task
  trace : List Event

/-- Conversion of the `int32` flag to `size_t` in the comparison of `on_sequence_stream`. -/
def int32_to_size_t (v : Int) : Nat := if 0 ≤ v then v.toNat else (v + 2 ^ 64).toNat

/-- Subtraction of two `size_t` values, which wraps around below zero. -/
def size_t_sub (a b : Nat) : Nat := if b ≤ a then a - b else a + 2 ^ 64 - b

/-- `ResponseHandler::on_request_finish(request)`. -/
def on_request_finish (st : HandlerState) (request : Request) : HandlerState :=
  { st with
    response_threadpool_ := st.response_threadpool_ ++ [Task.finish_request request]
    trace := st.trace ++
      [Event.release_slots_for_request request.id, Event.schedule (Task.finish_request request)] }

/-- `ResponseHandler::on_sequence_stream(seq)`, the flag
`FLAGS_streaming_token_buffer_size` being a parameter. -/
def on_sequence_stream (FLAGS_streaming_token_buffer_size : Int) (st : HandlerState)
    (seq : Nat) : HandlerState :=
  let num_tokens := (st.seqs seq).num_tokens
  let output_offset := (st.seqs seq).output_offset
  let num_tokens_to_output := size_t_sub num_tokens output_offset
  if (st.seqs seq).is_finished = true ∨
      num_tokens_to_output ≥ int32_to_size_t FLAGS_streaming_token_buffer_size then
    let finish_reason := (st.seqs seq).finish_reason
    { st with
      response_threadpool_ :=
        st.response_threadpool_ ++ [Task.stream_sequence seq num_tokens finish_reason]
      trace := st.trace ++ [Event.schedule (Task.stream_sequence seq num_tokens finish_reason)] }
  else st

/-- Modelled from the spec: the macro `GCHECK` (`common/logging.h` is not among the
sources), a check whose violation is fatal to the operation: when the condition does not
hold the task ends there with a check failure, otherwise it goes on. -/
def GCHECK (condition : Bool) (st rest : HandlerState) : HandlerState :=
  if condition then rest else { st with trace := st.trace ++ [Event.check_failure] }

/-- A worker thread running one closure. -/
def run_task (tokenizer : Tokenizer) (st : HandlerState) : Task → HandlerState
  | .finish_request request =>
    if request.stream then
      { st with trace := st.trace ++
          [Event.on_finish request.id "" FinishReason.NONE Status.default] }
    else
      GCHECK (request.sequences.length == 1) st <|
        match request.sequences.head? with
        | none => st
        | some seq =>
          let r := (st.seqs seq).decode_delta_text (st.seqs seq).num_tokens tokenizer
          { st with
            seqs := fun a => if a = seq then r.2 else st.seqs a
            trace := st.trace ++
              [Event.on_finish request.id r.1 (st.seqs seq).finish_reason Status.default] }
  | .stream_sequence seq end_ finish_reason =>
    let r := (st.seqs seq).decode_delta_text end_ tokenizer
    let st1 := { st with seqs := fun a => if a = seq then r.2 else st.seqs a }
    if r.1 ≠ "" ∨ finish_reason ≠ FinishReason.NONE then
      { st1 with trace := st1.trace ++ [Event.stream_delta seq r.1 finish_reason] }
    else st1

/-- The thread pool taking the `k`-th pending task and running it (nothing happens when
there is no such task). -/
def worker_step (tokenizer : Tokenizer) (st : HandlerState) (k : Nat) : HandlerState :=
  match st.response_threadpool_[k]? with
  | none => st
  | some task =>
    run_task tokenizer { st with response_threadpool_ := st.response_threadpool_.eraseIdx k } task

/-- A run of the thread pool: the pending tasks picked one after the other. -/
def run_workers (tokenizer : Tokenizer) (st : HandlerState) (picks : List Nat) : HandlerState :=
  picks.foldl (worker_step tokenizer) st

/-! ## The priority queue of `scheduler/continuous_batching_scheduler.h` -/

/-- Modelled from the spec: the comparator `RequestPtrGreater` (`request/request.h` is not
among the sources): `a` is greater than `b` when its priority class comes later (HIGH before
MEDIUM before LOW), or in the same class when it arrived later. -/
def RequestPtrGreater (a b : Request) : Bool :=
  if a.priority ≠ b.priority then decide (a.priority.rank > b.priority.rank)
  else decide (a.created_time > b.created_time)

/-- `MinHeap = std::priority_queue<Request*, std::vector<Request*>, RequestPtrGreater>`: the
adaptor around its container `c` of requests. -/
structure MinHeap where
  c : List Request
  deriving DecidableEq, Repr

namespace MinHeap

/-- The queue a scheduler starts with. -/
def empty : MinHeap := ⟨[]⟩

/-- `priority_queue::push`. -/
def push (q : MinHeap) (request : Request) : MinHeap := ⟨q.c ++ [request]⟩

/-- The one of two requests that the comparator does not put above the other (the first of
them when neither is above). -/
def lower (a b : Request) : Request := if RequestPtrGreater a b then b else a

/-- `priority_queue::top`: with the comparator `RequestPtrGreater` the queue is a min-heap,
and the top is a request that is greater than no other. Among several such requests the
standard leaves the choice open; this function takes the first in the container. -/
def top? (q : MinHeap) : Option Request :=
  match q.c with
  | [] => none
  | request :: rest => some (rest.foldl lower request)

/-- `priority_queue::pop`: removes the top. -/
def pop (q : MinHeap) : MinHeap :=
  match q.top? with
  | none => q
  | some request => ⟨q.c.erase request⟩

/-- The requests in the order in which `n` rounds of `top(); pop();` select them. -/
def pop_n : Nat → MinHeap → List Request
  | 0, _ => []
  | n + 1, q =>
    match q.top? with
    | none => []
    | some request => request :: pop_n n q.pop

/-- The selection order of the whole queue: `top(); pop();` until it is empty. -/
def pop_all (q : MinHeap) : List Request := pop_n q.c.length q

end MinHeap

/-- Any order in which a `std::priority_queue` with comparator `RequestPtrGreater` may hand
out its contents: each request popped is, at that moment, in the queue and greater than no
request in it. -/
inductive PopOrder : MinHeap → List Request → Prop where
  | done : PopOrder ⟨[]⟩ []
  | pop (q : MinHeap) (request : Request) (out : List Request) :
      request ∈ q.c → (∀ other ∈ q.c, RequestPtrGreater request other = false) →
      PopOrder ⟨q.c.erase request⟩ out → PopOrder q (request :: out)

/-- The order the spec states for batch selection: `a` may be selected before `b` when its
priority class is higher, or the class is the same and it did not arrive later. -/
def SelectedBefore (a b : Request) : Prop :=
  a.priority.rank < b.priority.rank ∨
    (a.priority = b.priority ∧ a.created_time ≤ b.created_time)

instance (a b : Request) : Decidable (SelectedBefore a b) := by
  unfold SelectedBefore; infer_instance

/-- A request of the given class and arrival time, with the remaining fields fixed. -/
def request_at (id : Nat) (priority : RequestPriority) (created_time : Nat) : Request :=
  { id := id, priority := priority, created_time := created_time, stream := false,
    sequences := [], status := Status.ok }

/-! ## Concrete inputs used by the instances below -/

/-- A cache of 3 blocks of 2 slots, 2 heads of size 4 packed by 2, holding zeros. -/
def example_cache : KVCache Nat where
  num_blocks := 3
  num_heads_ := 2
  head_size_ := 4
  block_size_ := 2
  x_ := 2
  key_cache_ := fun _ _ _ _ _ => 0
  value_cache_ := fun _ _ _ _ => 0

/-- Two key rows for `example_cache`. -/
def example_keys : List (List Nat) := [[1, 2, 3, 4, 5, 6, 7, 8], [11, 12, 13, 14, 15, 16, 17, 18]]

/-- Two value rows for `example_cache`. -/
def example_values : List (List Nat) :=
  [[21, 22, 23, 24, 25, 26, 27, 28], [31, 32, 33, 34, 35, 36, 37, 38]]

/-- A cache of 10 blocks of 16 slots, 1 head of size 2 packed by 2, holding zeros. -/
def cache16 : KVCache Nat where
  num_blocks := 10
  num_heads_ := 1
  head_size_ := 2
  block_size_ := 16
  x_ := 2
  key_cache_ := fun _ _ _ _ _ => 0
  value_cache_ := fun _ _ _ _ => 0

/-- A cache whose head size 3 is not a multiple of the packing factor 2. -/
def unpacked_cache : KVCache Nat where
  num_blocks := 1
  num_heads_ := 1
  head_size_ := 3
  block_size_ := 1
  x_ := 2
  key_cache_ := fun _ _ _ _ _ => 0
  value_cache_ := fun _ _ _ _ => 0

/-- A cache whose head size is 0: 1 block of 1 slot, 1 head, packing factor 1. -/
def headless_cache : KVCache Nat where
  num_blocks := 1
  num_heads_ := 1
  head_size_ := 0
  block_size_ := 1
  x_ := 1
  key_cache_ := fun _ _ _ _ _ => 0
  value_cache_ := fun _ _ _ _ => 0

/-- A tokenizer that writes one letter per token. -/
def letter_tokenizer : Tokenizer where
  decode := fun tokens => String.mk (tokens.map fun _ => 'a')

/-- A handler state with nothing pending, in which every address holds an unfinished
sequence of the given tokens of which the first `output_offset` are delivered. -/
def idle_state (tokens : List Nat) (output_offset : Nat) : HandlerState where
  seqs := fun _ =>
    { tokens := tokens, output_offset := output_offset, finish_reason := FinishReason.NONE,
      is_finished := false }
  response_threadpool_ := []
  trace := []

/-- A non-streaming request that holds no sequence. -/
def request_without_sequence : Request where
  id := 3
  priority := RequestPriority.MEDIUM
  created_time := 0
  stream := false
  sequences := []
  status := Status.ok

/-- A streaming request marked with an error status. -/
def failed_request : Request where
  id := 7
  priority := RequestPriority.MEDIUM
  created_time := 0
  stream := true
  sequences := [0]
  status := Status.error "execution failed"

/-- A non-streaming request with the one sequence at address 0. -/
def plain_request : Request where
  id := 5
  priority := RequestPriority.MEDIUM
  created_time := 0
  stream := false
  sequences := [0]
  status := Status.ok

/-- The slot ids that the spec gives for a block table, in its own words:
`slot_id(i) = block_table[i / block_size] * block_size + i % block_size` for `i` in
`[0, context_length)`, as a formula over the integers. -/
def expanded_slot_ids (block_size : Nat) (block_table : List Int) (context_length : Nat) :
    List Int :=
  (List.range context_length).map fun i =>
    block_table.getD (i / block_size) 0 * (block_size : Int) + ((i % block_size : Nat) : Int)

/-! ## `models/huggingface/internlm.h` -/

namespace hf
namespace InternlmDialog

/-- The loop of `get_prompt` over the messages still to be written, `i` being the index of
the first of them and `ss` the stream so far. -/
def get_prompt_loop : List String → Nat → String → String
  | [], _, ss => ss
  | message :: rest, i, ss =>
    if i % 2 = 0 then
      get_prompt_loop rest (i + 1) (((ss ++ "<s><|User|>:") ++ message) ++ "<eoh>\n")
    else
      get_prompt_loop rest (i + 1) (((ss ++ "<|Bot|>:") ++ message) ++ "<eoa>\n")

/-- `InternlmDialog::get_prompt()`; the members `system_message_` and `messages_` of the base
class are its parameters. -/
def get_prompt (system_message_ : String) (messages_ : List String) : Option String :=
  if messages_.length % 2 = 0 then none
  else
    let ss := ""
    let ss := if ¬ system_message_.isEmpty then ss ++ system_message_ else ss
    let ss := get_prompt_loop messages_ 0 ss
    some (ss ++ "<|Bot|>:")

end InternlmDialog

/-- The piece of the prompt that the template gives for message `i`. -/
def internlm_turn (i : Nat) (message : String) : String :=
  if i % 2 = 0 then "<s><|User|>:" ++ message ++ "<eoh>\n" else "<|Bot|>:" ++ message ++ "<eoa>\n"

/-- The prompt of the Internlm template in the words of its description: none for an even
number of messages, otherwise the system message, the piece of every message in order, and
the final `<|Bot|>:`. -/
def internlm_prompt (s : String) (m : List String) : Option String :=
  if m.length % 2 = 0 then none
  else some (s ++ String.join (m.enum.map fun p => internlm_turn p.1 p.2) ++ "<|Bot|>:")

end hf

/-- A cache of `2 ^ 30 + 1` blocks of 4 slots (more than `2 ^ 32` slots), 1 head of size 1,
in which every stored element is the number of its block. -/
def quad_cache : KVCache Nat where
  num_blocks := 1073741825
  num_heads_ := 1
  head_size_ := 1
  block_size_ := 4
  x_ := 1
  key_cache_ := fun b _ _ _ _ => b
  value_cache_ := fun b _ _ _ => b

/-- Three key rows for `example_cache`. -/
def example_keys3 : List (List Nat) :=
  [[1, 2, 3, 4, 5, 6, 7, 8], [11, 12, 13, 14, 15, 16, 17, 18], [41, 42, 43, 44, 45, 46, 47, 48]]

/-- Three value rows for `example_cache`. -/
def example_values3 : List (List Nat) :=
  [[21, 22, 23, 24, 25, 26, 27, 28], [31, 32, 33, 34, 35, 36, 37, 38],
    [51, 52, 53, 54, 55, 56, 57, 58]]

namespace KVCache
variable {α : Type}

/-! ## Lemmas on the cache accessors -/

theorem torch_index_natCast {k size : Nat} (h : k < size) : torch_index (k : Int) size = some k := by
  unfold torch_index
  have h1 : (0 : Int) ≤ (k : Int) ∧ (k : Int) < (size : Int) := ⟨Int.ofNat_nonneg k, by exact_mod_cast h⟩
  rw [if_pos h1]
  simp

theorem torch_index_block {s nb bs : Nat} (h : s < nb * bs) :
    torch_index ((s : Int).tdiv (bs : Int)) nb = some (s / bs) := by
  rw [← Int.ofNat_tdiv]
  exact torch_index_natCast (Nat.div_lt_of_lt_mul (by rwa [Nat.mul_comm] at h))

theorem torch_index_offset {s nb bs : Nat} (h : s < nb * bs) :
    torch_index ((s : Int).tmod (bs : Int)) bs = some (s % bs) := by
  rw [← Int.ofNat_tmod]
  have hbs : 0 < bs := by
    rcases Nat.eq_zero_or_pos bs with h0 | h0
    · subst h0; simp at h
    · exact h0
  exact torch_index_natCast (Nat.mod_lt _ hbs)

theorem slot_eq_of_address_eq {s t bs : Nat} (hd : s / bs = t / bs) (hm : s % bs = t % bs) :
    s = t := by
  rw [← Nat.div_add_mod s bs, ← Nat.div_add_mod t bs, hd, hm]

theorem unravel_ravel (p J X : Nat) :
    (p / (J * X) * J + p / X % J) * X + p % X = p := by
  have h1 : p / (J * X) = p / X / J := by rw [Nat.mul_comm, Nat.div_div_eq_div_mul]
  rw [h1, Nat.mul_comm (p / X / J) J, Nat.div_add_mod, Nat.mul_comm, Nat.div_add_mod]

theorem key_at_key_index_put_same (c : KVCache α) (b o : Nat) (src : List α)
    (h : src.length = c.num_heads_ * (c.head_size_ / c.x_ * c.x_)) :
    (c.key_index_put b o src).key_at b o = src := by
  apply List.ext_getElem
  · simp [key_at, key_index_put, h]
  · intro p hp _
    simp only [key_at, key_index_put, List.length_map, List.length_range] at hp
    have hJX : 0 < c.head_size_ / c.x_ * c.x_ := by
      rcases Nat.eq_zero_or_pos (c.head_size_ / c.x_ * c.x_) with h0 | h0
      · rw [h0] at hp; simp at hp
      · exact h0
    have hJ : 0 < c.head_size_ / c.x_ := Nat.pos_of_mul_pos_right hJX
    have hX : 0 < c.x_ := Nat.pos_of_mul_pos_left hJX
    have c1 : p / (c.head_size_ / c.x_ * c.x_) < c.num_heads_ := Nat.div_lt_of_lt_mul (by rwa [Nat.mul_comm] at hp)
    have c2 : p / c.x_ % (c.head_size_ / c.x_) < c.head_size_ / c.x_ := Nat.mod_lt _ hJ
    have c3 : p % c.x_ < c.x_ := Nat.mod_lt _ hX
    simp only [key_at, key_index_put, List.getElem_map, List.getElem_range, true_and, c1, c2, c3,
      and_self, if_true, unravel_ravel]
    rw [List.getD_eq_getElem _ _ (by omega)]

theorem value_at_value_index_put_same (c : KVCache α) (b o : Nat) (src : List α)
    (h : src.length = c.num_heads_ * c.head_size_) :
    (c.value_index_put b o src).value_at b o = src := by
  apply List.ext_getElem
  · simp [value_at, value_index_put, h]
  · intro p hp _
    simp only [value_at, value_index_put, List.length_map, List.length_range] at hp
    have hH : 0 < c.head_size_ := by
      rcases Nat.eq_zero_or_pos c.head_size_ with h0 | h0
      · rw [h0] at hp; simp at hp
      · exact h0
    have c1 : p / c.head_size_ < c.num_heads_ := Nat.div_lt_of_lt_mul (by rwa [Nat.mul_comm] at hp)
    have c2 : p % c.head_size_ < c.head_size_ := Nat.mod_lt _ hH
    have e : p / c.head_size_ * c.head_size_ + p % c.head_size_ = p := by
      rw [Nat.mul_comm, Nat.div_add_mod]
    simp only [value_at, value_index_put, List.getElem_map, List.getElem_range, true_and, c1, c2,
      and_self, if_true, e]
    rw [List.getD_eq_getElem _ _ (by omega)]

theorem key_at_key_index_put_other (c : KVCache α) (b o b' o' : Nat) (src : List α)
    (h : ¬ (b' = b ∧ o' = o)) :
    (c.key_index_put b o src).key_at b' o' = c.key_at b' o' := by
  simp only [key_at, key_index_put]
  apply List.map_congr_left
  intro p _
  rw [if_neg]
  intro hc
  exact h ⟨hc.1, hc.2.1⟩

theorem value_at_value_index_put_other (c : KVCache α) (b o b' o' : Nat) (src : List α)
    (h : ¬ (b' = b ∧ o' = o)) :
    (c.value_index_put b o src).value_at b' o' = c.value_at b' o' := by
  simp only [value_at, value_index_put]
  apply List.map_congr_left
  intro p _
  rw [if_neg]
  intro hc
  exact h ⟨hc.1, hc.2.1⟩

@[simp] theorem key_at_value_index_put (c : KVCache α) (b o b' o' : Nat) (src : List α) :
    (c.value_index_put b o src).key_at b' o' = c.key_at b' o' := rfl

@[simp] theorem value_at_key_index_put (c : KVCache α) (b o b' o' : Nat) (src : List α) :
    (c.key_index_put b o src).value_at b' o' = c.value_at b' o' := rfl

theorem SameDims.refl (c : KVCache α) : SameDims c c := ⟨rfl, rfl, rfl, rfl, rfl⟩

/-- One iteration of the write loop on a row of fitting shape and a slot id below capacity:
it succeeds and performs the two `index_put_` at block `s / block_size`, offset
`s % block_size`. -/
theorem set_kv_cache_body_eq (c : KVCache α) (keys values : List (List α)) (s i : Nat)
    (key value : List α) (hk : keys[i]? = some key) (hv : values[i]? = some value)
    (hkl : key.length = c.num_heads_ * (c.head_size_ / c.x_ * c.x_))
    (hvl : value.length = c.num_heads_ * c.head_size_)
    (hx : 0 < c.x_ ∧ c.x_ ≤ c.head_size_) (hs : s < c.capacity) :
    c.set_kv_cache_body keys values (s : Int) i =
      (((c.key_index_put (s / c.block_size_) (s % c.block_size_) key).value_index_put
          (s / c.block_size_) (s % c.block_size_) value), .ok ()) := by
  have hbs : c.block_size_ ≠ 0 := by
    intro h0
    unfold capacity at hs
    rw [h0] at hs
    simp at hs
  have hx0 : c.x_ ≠ 0 := by omega
  have hjx : ¬ (c.head_size_ / c.x_ * c.x_ = 0 ∨
      key.length ≠ c.num_heads_ * (c.head_size_ / c.x_ * c.x_)) := by
    have hj : 0 < c.head_size_ / c.x_ := Nat.div_pos hx.2 hx.1
    have : 0 < c.head_size_ / c.x_ * c.x_ := Nat.mul_pos hj hx.1
    rintro (h | h)
    · omega
    · exact h hkl
  unfold set_kv_cache_body
  rw [if_neg hbs]
  simp only [hk, hv, torch_index_block hs, torch_index_offset hs, if_neg hx0, if_neg hjx]
  simp [hvl]

/-- The write loop over slot ids below capacity and rows of fitting shape: it runs to the
end, keeps the tensor sizes, and leaves every vector alone whose address no slot id names. -/
theorem set_kv_cache_loop_frame (keys values : List (List α)) (nh nj hs : Nat) (ids : List Nat) :
    ∀ (i : Nat) (c : KVCache α),
      c.num_heads_ * (c.head_size_ / c.x_ * c.x_) = nj → c.num_heads_ * c.head_size_ = nh * hs →
      (0 < c.x_ ∧ c.x_ ≤ c.head_size_) →
      (∀ key ∈ keys, key.length = nj) → (∀ value ∈ values, value.length = nh * hs) →
      i + ids.length ≤ keys.length → i + ids.length ≤ values.length →
      (∀ s ∈ ids, s < c.capacity) →
      (set_kv_cache_loop keys values (ids.map Int.ofNat) i c).2 = .ok () ∧
      SameDims c (set_kv_cache_loop keys values (ids.map Int.ofNat) i c).1 ∧
      ∀ b o, (∀ s ∈ ids, ¬ (b = s / c.block_size_ ∧ o = s % c.block_size_)) →
        (set_kv_cache_loop keys values (ids.map Int.ofNat) i c).1.key_at b o = c.key_at b o ∧
        (set_kv_cache_loop keys values (ids.map Int.ofNat) i c).1.value_at b o = c.value_at b o := by
  induction ids with
  | nil =>
    intro i c _ _ _ _ _ _ _ _
    exact ⟨rfl, SameDims.refl c, fun b o _ => ⟨rfl, rfl⟩⟩
  | cons s rest ih =>
    intro i c hnj hnh hx hK hV hlk hlv hcap
    simp only [List.length_cons] at hlk hlv
    have hik : i < keys.length := by omega
    have hiv : i < values.length := by omega
    have hk : keys[i]? = some keys[i] := List.getElem?_eq_getElem hik
    have hv : values[i]? = some values[i] := List.getElem?_eq_getElem hiv
    have hkl := hK _ (List.getElem_mem hik)
    have hvl := hV _ (List.getElem_mem hiv)
    have hsc : s < c.capacity := hcap s (List.mem_cons_self _ _)
    have hbody := set_kv_cache_body_eq c keys values s i _ _ hk hv (hkl.trans hnj.symm)
      (hvl.trans hnh.symm) hx hsc
    have hloop : set_kv_cache_loop keys values ((s :: rest).map Int.ofNat) i c =
        set_kv_cache_loop keys values (rest.map Int.ofNat) (i + 1)
          ((c.key_index_put (s / c.block_size_) (s % c.block_size_) keys[i]).value_index_put
            (s / c.block_size_) (s % c.block_size_) values[i]) := by
      simp only [List.map_cons, set_kv_cache_loop]
      have hbody' : c.set_kv_cache_body keys values (Int.ofNat s) i = _ := hbody
      rw [hbody']
    rw [hloop]
    obtain ⟨h1, h2, h3⟩ := ih (i + 1)
      ((c.key_index_put (s / c.block_size_) (s % c.block_size_) keys[i]).value_index_put
        (s / c.block_size_) (s % c.block_size_) values[i])
      hnj hnh hx hK hV (by omega) (by omega)
      (fun t ht => hcap t (List.mem_cons_of_mem _ ht))
    refine ⟨h1, h2, ?_⟩
    intro b o hbo
    obtain ⟨hka, hva⟩ := h3 b o (fun t ht => hbo t (List.mem_cons_of_mem _ ht))
    have hne := hbo s (List.mem_cons_self _ _)
    constructor
    · rw [hka, key_at_value_index_put, key_at_key_index_put_other _ _ _ _ _ _ hne]
    · rw [hva, value_at_value_index_put_other _ _ _ _ _ _ hne, value_at_key_index_put]

/-- The write loop stores row `i + j` at the address of the `j`-th slot id, for good unless a
later slot id is the same. -/
theorem set_kv_cache_loop_stores (keys values : List (List α)) (nh nj hs : Nat) (ids : List Nat) :
    ∀ (i : Nat) (c : KVCache α),
      c.num_heads_ * (c.head_size_ / c.x_ * c.x_) = nj → c.num_heads_ * c.head_size_ = nh * hs →
      (0 < c.x_ ∧ c.x_ ≤ c.head_size_) →
      (∀ key ∈ keys, key.length = nj) → (∀ value ∈ values, value.length = nh * hs) →
      i + ids.length ≤ keys.length → i + ids.length ≤ values.length →
      (∀ s ∈ ids, s < c.capacity) →
      ∀ (j : Nat) (hj : j < ids.length),
        (∀ (j' : Nat) (hj' : j' < ids.length), j < j' → ids[j'] ≠ ids[j]) →
        keys[i + j]? = some ((set_kv_cache_loop keys values (ids.map Int.ofNat) i c).1.key_at
          (ids[j] / c.block_size_) (ids[j] % c.block_size_)) ∧
        values[i + j]? = some ((set_kv_cache_loop keys values (ids.map Int.ofNat) i c).1.value_at
          (ids[j] / c.block_size_) (ids[j] % c.block_size_)) := by
  induction ids with
  | nil => intro i c _ _ _ _ _ _ _ _ j hj; simp at hj
  | cons s rest ih =>
    intro i c hnj hnh hx hK hV hlk hlv hcap j hj hlast
    simp only [List.length_cons] at hlk hlv
    have hik : i < keys.length := by omega
    have hiv : i < values.length := by omega
    have hk : keys[i]? = some keys[i] := List.getElem?_eq_getElem hik
    have hv : values[i]? = some values[i] := List.getElem?_eq_getElem hiv
    have hkl := hK _ (List.getElem_mem hik)
    have hvl := hV _ (List.getElem_mem hiv)
    have hsc : s < c.capacity := hcap s (List.mem_cons_self _ _)
    have hbody : c.set_kv_cache_body keys values (Int.ofNat s) i = _ :=
      set_kv_cache_body_eq c keys values s i _ _ hk hv (hkl.trans hnj.symm) (hvl.trans hnh.symm)
        hx hsc
    have hloop : set_kv_cache_loop keys values ((s :: rest).map Int.ofNat) i c =
        set_kv_cache_loop keys values (rest.map Int.ofNat) (i + 1)
          ((c.key_index_put (s / c.block_size_) (s % c.block_size_) keys[i]).value_index_put
            (s / c.block_size_) (s % c.block_size_) values[i]) := by
      simp only [List.map_cons, set_kv_cache_loop]
      rw [hbody]
    rw [hloop]
    have hcap' : ∀ t ∈ rest, t < c.capacity := fun t ht => hcap t (List.mem_cons_of_mem _ ht)
    cases j with
    | zero =>
      simp only [List.getElem_cons_zero, Nat.add_zero]
      have hfr := (set_kv_cache_loop_frame keys values nh nj hs rest (i + 1)
        ((c.key_index_put (s / c.block_size_) (s % c.block_size_) keys[i]).value_index_put
          (s / c.block_size_) (s % c.block_size_) values[i])
        hnj hnh hx hK hV (by omega) (by omega) hcap').2.2 (s / c.block_size_)
        (s % c.block_size_)
        (by
          intro t ht hc
          obtain ⟨k, hk', rfl⟩ := List.mem_iff_getElem.mp ht
          have := hlast (k + 1) (by simp; omega) (by omega)
          simp only [List.getElem_cons_succ, List.getElem_cons_zero] at this
          exact this (slot_eq_of_address_eq hc.1 hc.2).symm)
      rw [hfr.1, hfr.2, key_at_value_index_put,
        key_at_key_index_put_same _ _ _ _ (hkl.trans hnj.symm),
        value_at_value_index_put_same (c.key_index_put (s / c.block_size_) (s % c.block_size_) keys[i])
          _ _ _ (hvl.trans hnh.symm)]
      exact ⟨hk, hv⟩
    | succ j =>
      simp only [List.length_cons, Nat.add_lt_add_iff_right] at hj
      have := ih (i + 1)
        ((c.key_index_put (s / c.block_size_) (s % c.block_size_) keys[i]).value_index_put
          (s / c.block_size_) (s % c.block_size_) values[i])
        hnj hnh hx hK hV (by omega) (by omega) hcap' j hj
        (by
          intro j' hj' hlt
          have := hlast (j' + 1) (by simp; omega) (by omega)
          simpa only [List.getElem_cons_succ] using this)
      simp only [List.getElem_cons_succ]
      have e : i + (j + 1) = i + 1 + j := by omega
      rw [e]
      exact this

/-- The write loop over a list of slot ids in two parts: the state in between is the state
after the iterations of the first part. -/
theorem set_kv_cache_loop_append (keys values : List (List α)) (a b : List Int) :
    ∀ (i : Nat) (c : KVCache α),
      (set_kv_cache_loop keys values a i c).2 = .ok () →
      set_kv_cache_loop keys values (a ++ b) i c =
        set_kv_cache_loop keys values b (i + a.length) (set_kv_cache_loop keys values a i c).1 := by
  induction a with
  | nil => intro i c _; rfl
  | cons s rest ih =>
    intro i c h
    simp only [List.cons_append, set_kv_cache_loop, List.length_cons] at h ⊢
    split at h
    · next c1 u heq =>
      have e := ih (i + 1) c1 h
      have : i + 1 + rest.length = i + (rest.length + 1) := by omega
      rw [this] at e
      exact e
    · simp at h

theorem get_kv_cache_body_eq (c : KVCache α) (s : Nat) (hs : s < c.capacity)
    (hshape : c.num_heads_ * (c.head_size_ / c.x_ * c.x_) = c.num_heads_ * c.head_size_) :
    c.get_kv_cache_body (Int.ofNat s) =
      .ok (c.key_at (s / c.block_size_) (s % c.block_size_),
        c.value_at (s / c.block_size_) (s % c.block_size_)) := by
  unfold get_kv_cache_body
  have h1 : torch_index ((Int.ofNat s).tdiv c.block_size_) c.num_blocks = _ := torch_index_block hs
  have h2 : torch_index ((Int.ofNat s).tmod c.block_size_) c.block_size_ = _ :=
    torch_index_offset hs
  simp only [h1, h2]
  simp [hshape]

theorem get_kv_cache_loop_eq (c : KVCache α) (ids : List Nat) (hcap : ∀ s ∈ ids, s < c.capacity)
    (hshape : c.num_heads_ * (c.head_size_ / c.x_ * c.x_) = c.num_heads_ * c.head_size_) :
    c.get_kv_cache_loop (ids.map Int.ofNat) =
      .ok (ids.map (fun s => c.key_at (s / c.block_size_) (s % c.block_size_)),
        ids.map (fun s => c.value_at (s / c.block_size_) (s % c.block_size_))) := by
  induction ids with
  | nil => rfl
  | cons s rest ih =>
    simp only [List.map_cons, get_kv_cache_loop]
    rw [get_kv_cache_body_eq c s (hcap s (List.mem_cons_self _ _)) hshape,
      ih (fun t ht => hcap t (List.mem_cons_of_mem _ ht))]

theorem get_kv_cache_eq (c : KVCache α) (ids : List Nat) (hne : ids ≠ [])
    (hcap : ∀ s ∈ ids, s < c.capacity)
    (hshape : c.num_heads_ * (c.head_size_ / c.x_ * c.x_) = c.num_heads_ * c.head_size_) :
    c.get_kv_cache (ids.map Int.ofNat) =
      (c, .ok (ids.map (fun s => c.key_at (s / c.block_size_) (s % c.block_size_)),
        ids.map (fun s => c.value_at (s / c.block_size_) (s % c.block_size_)))) := by
  unfold get_kv_cache
  rw [get_kv_cache_loop_eq c ids hcap hshape]
  cases ids with
  | nil => exact absurd rfl hne
  | cons s rest => simp

theorem get_kv_cache_state (c : KVCache α) (ids : List Int) : (c.get_kv_cache ids).1 = c := by
  unfold get_kv_cache
  split
  · rfl
  · split <;> rfl

theorem shape_of_dvd (c : KVCache α) (hx : c.x_ ∣ c.head_size_) :
    c.num_heads_ * (c.head_size_ / c.x_ * c.x_) = c.num_heads_ * c.head_size_ := by
  rw [Nat.div_mul_cancel hx]

theorem toInt32_of_fits (v : Int) (h1 : -2 ^ 31 ≤ v) (h2 : v < 2 ^ 31) : toInt32 v = v := by
  unfold toInt32; omega

theorem toInt32_add_toInt32 (a b : Int) : toInt32 (a + toInt32 b) = toInt32 (a + b) := by
  unfold toInt32; omega

theorem set_kv_cache_body_ne_check_failed (c : KVCache α) (keys values : List (List α))
    (slot_id : Int) (i : Nat) :
    (c.set_kv_cache_body keys values slot_id i).2 ≠ .error .check_failed := by
  unfold set_kv_cache_body
  simp only
  repeat' split
  all_goals simp

/-- With the counts of slot ids, key rows and value rows equal, `set_kv_cache` is its write
loop in either build. -/
theorem set_kv_cache_eq_loop (c : KVCache α) (DCHECK_IS_ON : Bool) (slot_ids : List Int)
    (keys values : List (List α)) (hK : slot_ids.length = keys.length)
    (hV : slot_ids.length = values.length) :
    c.set_kv_cache DCHECK_IS_ON slot_ids keys values =
      set_kv_cache_loop keys values slot_ids 0 c := by
  unfold set_kv_cache
  rw [if_neg (fun h => h.2 hK), if_neg (fun h => h.2 hV)]

theorem set_kv_cache_loop_ne_check_failed (keys values : List (List α)) (ids : List Int) :
    ∀ (i : Nat) (c : KVCache α),
      (set_kv_cache_loop keys values ids i c).2 ≠ .error .check_failed := by
  induction ids with
  | nil => intro i c; simp [set_kv_cache_loop]
  | cons s rest ih =>
    intro i c
    have hb := set_kv_cache_body_ne_check_failed c keys values s i
    simp only [set_kv_cache_loop]
    split
    · exact ih _ _
    · next c1 e heq =>
      rw [heq] at hb
      exact hb

theorem build_slot_ids_eq (c : KVCache α) (block_table : List Int) :
    ∀ n : Nat, (∀ i, i < n → i / c.block_size_ < block_table.length) →
      c.build_slot_ids block_table n =
        some ((List.range n).map fun i =>
          toInt32 (block_table.getD (i / c.block_size_) 0 * (c.block_size_ : Int) +
            ((i % c.block_size_ : Nat) : Int))) := by
  intro n
  induction n with
  | zero => intro _; rfl
  | succ n ih =>
    intro h
    have hn := h n (Nat.lt_succ_self n)
    rw [build_slot_ids, ih (fun i hi => h i (Nat.lt_succ_of_lt hi)),
      List.getElem?_eq_getElem hn]
    simp only [List.range_succ, List.map_append, List.map_cons, List.map_nil,
      toInt32_add_toInt32]
    rw [List.getD_eq_getElem _ _ hn]

theorem div_lt_of_ceil_le {n bs len : Nat} (hbs : 1 ≤ bs) (hlen : (n + bs - 1) / bs ≤ len)
    {i : Nat} (hi : i < n) : i / bs < len := by
  have h1 : i / bs ≤ (n - 1) / bs := Nat.div_le_div_right (by omega)
  have h2 : (n - 1) / bs + 1 = (n + bs - 1) / bs := by
    have : n + bs - 1 = (n - 1) + bs := by omega
    rw [this, Nat.add_div_right _ (by omega)]
  omega

end KVCache

/-! ## Lemmas on the response handler -/

theorem run_task_finish_stream (tokenizer : Tokenizer) (st : HandlerState) (request : Request)
    (h : request.stream = true) :
    (run_task tokenizer st (.finish_request request)).trace =
      st.trace ++ [Event.on_finish request.id "" FinishReason.NONE Status.default] := by
  simp only [run_task, h, if_true]

theorem run_task_finish_single (tokenizer : Tokenizer) (st : HandlerState) (request : Request)
    (seq : Nat) (h : request.stream = false) (hs : request.sequences = [seq]) :
    (run_task tokenizer st (.finish_request request)).trace =
      st.trace ++ [Event.on_finish request.id
        ((st.seqs seq).decode_delta_text (st.seqs seq).num_tokens tokenizer).1
        (st.seqs seq).finish_reason Status.default] := by
  simp [run_task, GCHECK, h, hs]

theorem run_task_finish_check (tokenizer : Tokenizer) (st : HandlerState) (request : Request)
    (h : request.stream = false) (hs : request.sequences.length ≠ 1) :
    (run_task tokenizer st (.finish_request request)).trace =
      st.trace ++ [Event.check_failure] := by
  simp [run_task, GCHECK, h, hs]

theorem run_task_trace (tokenizer : Tokenizer) (st : HandlerState) (task : Task) :
    ∃ later, (run_task tokenizer st task).trace = st.trace ++ later ∧
      ∀ e ∈ later, ¬ e.from_handler := by
  cases task with
  | finish_request request =>
    by_cases h : request.stream = true
    · exact ⟨_, run_task_finish_stream tokenizer st request h, by simp [Event.from_handler]⟩
    · have h' : request.stream = false := by simpa using h
      by_cases hs : request.sequences.length = 1
      · obtain ⟨seq, hseq⟩ := List.length_eq_one.mp hs
        exact ⟨_, run_task_finish_single tokenizer st request seq h' hseq,
          by simp [Event.from_handler]⟩
      · exact ⟨_, run_task_finish_check tokenizer st request h' hs, by simp [Event.from_handler]⟩
  | stream_sequence seq end_ finish_reason =>
    simp only [run_task]
    split
    · exact ⟨_, rfl, by simp [Event.from_handler]⟩
    · exact ⟨[], by simp, by simp⟩

theorem worker_step_trace (tokenizer : Tokenizer) (st : HandlerState) (k : Nat) :
    ∃ later, (worker_step tokenizer st k).trace = st.trace ++ later ∧
      ∀ e ∈ later, ¬ e.from_handler := by
  unfold worker_step
  split
  · exact ⟨[], by simp, by simp⟩
  · exact run_task_trace tokenizer _ _

theorem run_workers_trace (tokenizer : Tokenizer) (picks : List Nat) :
    ∀ st : HandlerState, ∃ later, (run_workers tokenizer st picks).trace = st.trace ++ later ∧
      ∀ e ∈ later, ¬ e.from_handler := by
  induction picks with
  | nil => intro st; exact ⟨[], by simp [run_workers], by simp⟩
  | cons k rest ih =>
    intro st
    obtain ⟨l1, h1, h1'⟩ := worker_step_trace tokenizer st k
    obtain ⟨l2, h2, h2'⟩ := ih (worker_step tokenizer st k)
    refine ⟨l1 ++ l2, ?_, ?_⟩
    · have : run_workers tokenizer st (k :: rest) =
          run_workers tokenizer (worker_step tokenizer st k) rest := rfl
      rw [this, h2, h1, List.append_assoc]
    · intro e he
      rcases List.mem_append.mp he with h | h
      · exact h1' e h
      · exact h2' e h

theorem int32_to_size_t_of_pos (t : Int) (h : 1 ≤ t) : (int32_to_size_t t : Int) = t := by
  unfold int32_to_size_t
  rw [if_pos (by omega)]
  exact Int.toNat_of_nonneg (by omega)

theorem size_t_sub_of_le {a b : Nat} (h : b ≤ a) : size_t_sub a b = a - b := by
  unfold size_t_sub; rw [if_pos h]

/-! ## Lemmas on the priority queue -/

theorem rank_injective (p q : RequestPriority) (h : p.rank = q.rank) : p = q := by
  cases p <;> cases q <;> simp [RequestPriority.rank] at h ⊢

theorem greater_eq_false_iff (a b : Request) :
    RequestPtrGreater a b = false ↔ SelectedBefore a b := by
  unfold RequestPtrGreater SelectedBefore
  by_cases h : a.priority = b.priority
  · simp [h]
  · have hr : a.priority.rank ≠ b.priority.rank := fun hc => h (rank_injective _ _ hc)
    simp only [ne_eq, h, not_false_eq_true, if_true, decide_eq_false_iff_not, false_and, or_false]
    omega

theorem selectedBefore_refl (a : Request) : SelectedBefore a a := Or.inr ⟨rfl, Nat.le_refl _⟩

theorem selectedBefore_trans {a b c : Request} (h1 : SelectedBefore a b)
    (h2 : SelectedBefore b c) : SelectedBefore a c := by
  unfold SelectedBefore at *
  rcases h1 with h1 | ⟨h1, h1'⟩
  · rcases h2 with h2 | ⟨h2, _⟩
    · left; omega
    · left; rw [← h2]; exact h1
  · rcases h2 with h2 | ⟨h2, h2'⟩
    · left; rw [h1]; exact h2
    · right; exact ⟨h1.trans h2, by omega⟩

theorem selectedBefore_of_greater {a b : Request} (h : RequestPtrGreater a b = true) :
    SelectedBefore b a := by
  unfold RequestPtrGreater at h
  unfold SelectedBefore
  by_cases hp : a.priority = b.priority
  · simp [hp] at h
    right; exact ⟨hp.symm, by omega⟩
  · simp [hp] at h
    left; exact h

theorem lower_spec (a b : Request) :
    (MinHeap.lower a b = a ∨ MinHeap.lower a b = b) ∧
      SelectedBefore (MinHeap.lower a b) a ∧ SelectedBefore (MinHeap.lower a b) b := by
  unfold MinHeap.lower
  by_cases h : RequestPtrGreater a b = true
  · rw [if_pos h]
    exact ⟨Or.inr rfl, selectedBefore_of_greater h, selectedBefore_refl b⟩
  · rw [if_neg h]
    have h' : RequestPtrGreater a b = false := by simpa using h
    exact ⟨Or.inl rfl, selectedBefore_refl a, (greater_eq_false_iff a b).mp h'⟩

theorem foldl_lower_spec (rest : List Request) :
    ∀ r : Request, rest.foldl MinHeap.lower r ∈ r :: rest ∧
      ∀ x ∈ r :: rest, SelectedBefore (rest.foldl MinHeap.lower r) x := by
  induction rest with
  | nil =>
    intro r
    exact ⟨List.mem_singleton.mpr rfl, fun x hx => by
      rw [List.mem_singleton.mp hx]; exact selectedBefore_refl r⟩
  | cons y ys ih =>
    intro r
    obtain ⟨hmem, hmin⟩ := ih (MinHeap.lower r y)
    obtain ⟨hsel, hr, hy⟩ := lower_spec r y
    simp only [List.foldl_cons]
    constructor
    · rcases List.mem_cons.mp hmem with h | h
      · rw [h]
        rcases hsel with h' | h'
        · rw [h']; exact List.mem_cons_self _ _
        · rw [h']; exact List.mem_cons_of_mem _ (List.mem_cons_self _ _)
      · exact List.mem_cons_of_mem _ (List.mem_cons_of_mem _ h)
    · intro x hx
      have h0 := hmin _ (List.mem_cons_self _ _)
      rcases List.mem_cons.mp hx with h | h
      · rw [h]; exact selectedBefore_trans h0 hr
      · rcases List.mem_cons.mp h with h | h
        · rw [h]; exact selectedBefore_trans h0 hy
        · exact hmin x (List.mem_cons_of_mem _ h)

theorem top_spec (q : MinHeap) (m : Request) (h : q.top? = some m) :
    m ∈ q.c ∧ ∀ x ∈ q.c, RequestPtrGreater m x = false := by
  unfold MinHeap.top? at h
  split at h
  · exact absurd h (by simp)
  · next r rest heq =>
    have := foldl_lower_spec rest r
    rw [Option.some.inj h] at this
    rw [heq]
    exact ⟨this.1, fun x hx => (greater_eq_false_iff m x).mpr (this.2 x hx)⟩

theorem pop_n_popOrder : ∀ (n : Nat) (q : MinHeap), q.c.length = n →
    PopOrder q (MinHeap.pop_n n q) := by
  intro n
  induction n with
  | zero =>
    intro q hq
    have : q = ⟨[]⟩ := by
      cases q with
      | mk c => simp at hq; rw [hq]
    rw [this]
    exact PopOrder.done
  | succ n ih =>
    intro q hq
    cases hc : q.c with
    | nil => rw [hc] at hq; simp at hq
    | cons r rest =>
      have htop : q.top? = some (rest.foldl MinHeap.lower r) := by
        unfold MinHeap.top?; rw [hc]
      obtain ⟨hmem, hmin⟩ := top_spec q _ htop
      have hpop : q.pop = ⟨q.c.erase (rest.foldl MinHeap.lower r)⟩ := by
        unfold MinHeap.pop; rw [htop]
      simp only [MinHeap.pop_n, htop, hpop]
      apply PopOrder.pop q _ _ hmem hmin
      apply ih
      rw [List.length_erase_of_mem hmem, hq]
      rfl

theorem popOrder_perm_sorted : ∀ (q : MinHeap) (out : List Request), PopOrder q out →
    out.Perm q.c ∧ out.Pairwise SelectedBefore := by
  intro q out h
  induction h with
  | done => exact ⟨List.Perm.refl _, List.Pairwise.nil⟩
  | pop q r out hmem hmin _ ih =>
    obtain ⟨hperm, hsorted⟩ := ih
    constructor
    · exact (List.Perm.cons r hperm).trans (List.perm_cons_erase hmem).symm
    · apply List.Pairwise.cons _ hsorted
      intro x hx
      have hx' : x ∈ q.c := List.mem_of_mem_erase (hperm.subset hx)
      exact (greater_eq_false_iff r x).mp (hmin x hx')

theorem foldl_push (requests : List Request) :
    ∀ q : MinHeap, requests.foldl MinHeap.push q = ⟨q.c ++ requests⟩ := by
  induction requests with
  | nil => intro q; simp
  | cons r rest ih => intro q; simp [ih, MinHeap.push]

namespace KVCache
variable {α : Type}

/-! ## Claims on the KV cache -/

/-- Claim C1, as stated, fails on two inputs, in either build: on the empty batch nothing is
written, and reading back the empty list of slot ids does not return the empty `K` and `V`,
because `torch::stack` rejects an empty list of tensors; and in a cache whose head size is 0
(divisible by every `x`) the write of a row to slot 0 fails, because
`reshape({-1, head_size_ / x_, x_})` cannot infer the extent `-1` next to an extent 0. -/
theorem round_trip_fails_on_empty_list_and_empty_head :
    (1 ≤ example_cache.block_size_ ∧ example_cache.x_ ∣ example_cache.head_size_ ∧
      ([] : List Nat).Nodup ∧
      (example_cache.set_kv_cache true [] [] []).2 = .ok () ∧
      ((example_cache.set_kv_cache true [] [] []).1.get_kv_cache []).2 = .error .empty_stack ∧
      ((example_cache.set_kv_cache false [] [] []).1.get_kv_cache []).2 =
        .error .empty_stack) ∧
    (1 ≤ headless_cache.block_size_ ∧ headless_cache.x_ ∣ headless_cache.head_size_ ∧
      ([0] : List Nat).Nodup ∧ 0 < headless_cache.capacity ∧
      ([[]] : List (List Nat)).length = [(0 : Nat)].length ∧
      (∀ row ∈ ([[]] : List (List Nat)),
        row.length = headless_cache.num_heads_ * headless_cache.head_size_) ∧
      (headless_cache.set_kv_cache true [0] [[]] [[]]).2 = .error .invalid_shape ∧
      (headless_cache.set_kv_cache false [0] [[]] [[]]).2 = .error .invalid_shape) := by
  decide

/-- Claim C1 (amended): in either build, for every cache whose head size is divisible by the
packing factor `x` with `0 < x ≤ head_size`, every non-empty list of pairwise distinct,
non-negative slot ids below the capacity `num_blocks * block_size` (so the block size is at
least 1), and every `K`, `V` with one row of `num_heads * head_size` elements per slot id,
`set_kv_cache(slot_ids, K, V)` succeeds and `get_kv_cache(slot_ids)` afterwards returns
exactly the rows of `K` and the rows of `V`, in order. -/
theorem set_get_kv_cache_round_trip (c : KVCache α) (DCHECK_IS_ON : Bool) (slot_ids : List Nat)
    (K V : List (List α))
    (hx : c.x_ ∣ c.head_size_) (hx0 : 0 < c.x_) (hxle : c.x_ ≤ c.head_size_)
    (hne : slot_ids ≠ []) (hnd : slot_ids.Nodup)
    (hcap : ∀ s ∈ slot_ids, s < c.capacity)
    (hK : K.length = slot_ids.length) (hV : V.length = slot_ids.length)
    (hKrow : ∀ key ∈ K, key.length = c.num_heads_ * c.head_size_)
    (hVrow : ∀ value ∈ V, value.length = c.num_heads_ * c.head_size_) :
    (c.set_kv_cache DCHECK_IS_ON (slot_ids.map Int.ofNat) K V).2 = .ok () ∧
    ((c.set_kv_cache DCHECK_IS_ON (slot_ids.map Int.ofNat) K V).1.get_kv_cache
      (slot_ids.map Int.ofNat)).2 = .ok (K, V) := by
  have hshape := shape_of_dvd c hx
  rw [set_kv_cache_eq_loop c DCHECK_IS_ON _ K V (by simp [hK]) (by simp [hV])]
  obtain ⟨hok, hdims, _⟩ := set_kv_cache_loop_frame K V c.num_heads_ _ c.head_size_ slot_ids 0 c
    hshape rfl ⟨hx0, hxle⟩ hKrow hVrow (by omega) (by omega) hcap
  have hst := set_kv_cache_loop_stores K V c.num_heads_ _ c.head_size_ slot_ids 0 c
    hshape rfl ⟨hx0, hxle⟩ hKrow hVrow (by omega) (by omega) hcap
  refine ⟨hok, ?_⟩
  generalize set_kv_cache_loop K V (slot_ids.map Int.ofNat) 0 c = r at hok hdims hst
  obtain ⟨hnb, hnh, hhs, hbs, hxx⟩ := hdims
  have hcap' : ∀ s ∈ slot_ids, s < r.1.capacity := by
    intro s hs; unfold capacity; rw [hnb, hbs]; exact hcap s hs
  have hshape' : r.1.num_heads_ * (r.1.head_size_ / r.1.x_ * r.1.x_) =
      r.1.num_heads_ * r.1.head_size_ := by
    rw [hnh, hhs, hxx]; exact hshape
  rw [get_kv_cache_eq r.1 slot_ids hne hcap' hshape']
  have hlast : ∀ (j : Nat) (hj : j < slot_ids.length) (j' : Nat) (hj' : j' < slot_ids.length),
      j < j' → slot_ids[j'] ≠ slot_ids[j] := by
    intro j hj j' hj' hlt heq
    have := (List.Nodup.getElem_inj_iff hnd).mp heq
    omega
  have hkeys : slot_ids.map (fun s => r.1.key_at (s / r.1.block_size_) (s % r.1.block_size_)) =
      K := by
    apply List.ext_getElem
    · simp [hK]
    · intro j h1 h2
      simp only [List.length_map] at h1
      have := (hst j h1 (hlast j h1)).1
      simp only [Nat.zero_add] at this
      rw [List.getElem?_eq_getElem h2] at this
      simp only [List.getElem_map, hbs]
      exact (Option.some.inj this).symm
  have hvalues : slot_ids.map
      (fun s => r.1.value_at (s / r.1.block_size_) (s % r.1.block_size_)) = V := by
    apply List.ext_getElem
    · simp [hV]
    · intro j h1 h2
      simp only [List.length_map] at h1
      have := (hst j h1 (hlast j h1)).2
      simp only [Nat.zero_add] at this
      rw [List.getElem?_eq_getElem h2] at this
      simp only [List.getElem_map, hbs]
      exact (Option.some.inj this).symm
  rw [hkeys, hvalues]

/-- The round trip of claim C1 on `example_cache`, slot ids 5 and 2, in a build with
`NDEBUG`. -/
theorem set_get_kv_cache_round_trip_witness :
    (example_cache.set_kv_cache false ([5, 2].map Int.ofNat) example_keys example_values).2 =
      .ok () ∧
    ((example_cache.set_kv_cache false ([5, 2].map Int.ofNat) example_keys
      example_values).1.get_kv_cache ([5, 2].map Int.ofNat)).2 =
      .ok (example_keys, example_values) :=
  set_get_kv_cache_round_trip example_cache false [5, 2] example_keys example_values
    (by decide) (by decide) (by decide) (by decide) (by decide) (by decide) rfl rfl
    (by decide) (by decide)

/-- Claim C2: in either build, in a call of `set_kv_cache` on a cache with
`0 < x ≤ head_size`, with one key row and one value row per slot id, rows of the shapes that
the cache stores, and non-negative slot ids below the capacity `num_blocks * block_size` (so
the block size is at least 1), the loop iteration for row `i` stores key row `i` and value
row `i` in block `slot_ids[i] / block_size` at offset `slot_ids[i] % block_size`. The call
is the loop over the first `i + 1` slot ids followed by the loop over the others; the two
rows are what the cache holds at that address after the first `i + 1` iterations, and what
it holds there when the call returns unless a later row has the same slot id. With
`block_size = 16`, slot id 37 is written to block 2 at offset 5. -/
theorem set_kv_cache_slot_addressing :
    (∀ (c : KVCache α) (DCHECK_IS_ON : Bool) (slot_ids : List Nat)
        (keys values : List (List α)) (i : Nat) (hi : i < slot_ids.length),
      0 < c.x_ → c.x_ ≤ c.head_size_ →
      keys.length = slot_ids.length → values.length = slot_ids.length →
      (∀ key ∈ keys, key.length = c.num_heads_ * (c.head_size_ / c.x_ * c.x_)) →
      (∀ value ∈ values, value.length = c.num_heads_ * c.head_size_) →
      (∀ s ∈ slot_ids, s < c.capacity) →
      c.set_kv_cache DCHECK_IS_ON (slot_ids.map Int.ofNat) keys values =
        set_kv_cache_loop keys values ((slot_ids.drop (i + 1)).map Int.ofNat) (i + 1)
          (set_kv_cache_loop keys values ((slot_ids.take (i + 1)).map Int.ofNat) 0 c).1 ∧
      (keys[i]? = some ((set_kv_cache_loop keys values ((slot_ids.take (i + 1)).map Int.ofNat)
            0 c).1.key_at (slot_ids[i] / c.block_size_) (slot_ids[i] % c.block_size_)) ∧
        values[i]? = some ((set_kv_cache_loop keys values
            ((slot_ids.take (i + 1)).map Int.ofNat) 0 c).1.value_at
            (slot_ids[i] / c.block_size_) (slot_ids[i] % c.block_size_))) ∧
      ((∀ (j : Nat) (hj : j < slot_ids.length), i < j → slot_ids[j] ≠ slot_ids[i]) →
        keys[i]? = some ((c.set_kv_cache DCHECK_IS_ON (slot_ids.map Int.ofNat) keys
            values).1.key_at (slot_ids[i] / c.block_size_) (slot_ids[i] % c.block_size_)) ∧
        values[i]? = some ((c.set_kv_cache DCHECK_IS_ON (slot_ids.map Int.ofNat) keys
            values).1.value_at (slot_ids[i] / c.block_size_)
            (slot_ids[i] % c.block_size_)))) ∧
    (cache16.block_size_ = 16 ∧
      (cache16.set_kv_cache true [37] [[7, 8]] [[9, 10]]).1.key_at 2 5 = [7, 8] ∧
      (cache16.set_kv_cache true [37] [[7, 8]] [[9, 10]]).1.value_at 2 5 = [9, 10] ∧
      (cache16.set_kv_cache false [37] [[7, 8]] [[9, 10]]).1.key_at 2 5 = [7, 8] ∧
      (cache16.set_kv_cache false [37] [[7, 8]] [[9, 10]]).1.value_at 2 5 = [9, 10]) := by
  refine ⟨?_, by decide⟩
  intro c DCHECK_IS_ON slot_ids keys values i hi hx0 hxle hK hV hKrow hVrow hcap
  have hlen : (slot_ids.take (i + 1)).length = i + 1 := by
    rw [List.length_take]; omega
  have hset := set_kv_cache_eq_loop c DCHECK_IS_ON (slot_ids.map Int.ofNat) keys values
    (by simp [hK]) (by simp [hV])
  refine ⟨?_, ?_, ?_⟩
  · have hok := (set_kv_cache_loop_frame keys values c.num_heads_ _ c.head_size_
      (slot_ids.take (i + 1)) 0 c rfl rfl ⟨hx0, hxle⟩ hKrow hVrow (by omega) (by omega)
      (fun s hs => hcap s (List.mem_of_mem_take hs))).1
    have happ := set_kv_cache_loop_append keys values ((slot_ids.take (i + 1)).map Int.ofNat)
      ((slot_ids.drop (i + 1)).map Int.ofNat) 0 c hok
    rw [← List.map_append, List.take_append_drop, List.length_map, hlen, Nat.zero_add] at happ
    rw [hset, happ]
  · have h := set_kv_cache_loop_stores keys values c.num_heads_ _ c.head_size_
      (slot_ids.take (i + 1)) 0 c rfl rfl ⟨hx0, hxle⟩ hKrow hVrow (by omega) (by omega)
      (fun s hs => hcap s (List.mem_of_mem_take hs)) i (by omega)
      (fun j' hj' hlt => by omega)
    simpa only [Nat.zero_add, List.getElem_take] using h
  · intro hlast
    rw [hset]
    have h := set_kv_cache_loop_stores keys values c.num_heads_ _ c.head_size_
      slot_ids 0 c rfl rfl ⟨hx0, hxle⟩ hKrow hVrow (by omega) (by omega) hcap i hi hlast
    simpa only [Nat.zero_add] using h

/-- The addressing of claim C2 on `example_cache`, for the second of the slot ids 5 and 2:
row 1 lands in block 1 at offset 0. -/
theorem set_kv_cache_slot_addressing_witness :
    example_keys[1]? = some ((example_cache.set_kv_cache true ([5, 2].map Int.ofNat)
      example_keys example_values).1.key_at 1 0) ∧
    example_values[1]? = some ((example_cache.set_kv_cache true ([5, 2].map Int.ofNat)
      example_keys example_values).1.value_at 1 0) :=
  (set_kv_cache_slot_addressing.1 example_cache true [5, 2] example_keys example_values 1
    (by decide) (by decide) (by decide) rfl rfl (by decide) (by decide) (by decide)).2.2
    (by decide)

/-- Claim C3: for every block size at least 1, every context length at least 0 and every
block table with at least `ceil(context_len / block_size)` entries,
`get_kv_cache(block_table, context_len)` returns exactly what `get_kv_cache(slot_ids)` returns
for the list `slot_ids` of length `context_len` with
`slot_ids[i] = block_table[i / block_size] * block_size + i % block_size`, each value being
the `int` that the list of the slot-list overload holds (the value of the formula narrowed to
32 bits); where the values of the formula fit a signed 32-bit integer that list is the list
of the formula's own values. For block size 16, block table `[5, 9, 2]` and context length
40 the slot id at position 20 is 148, in the spec's list and in the list the code builds. -/
theorem get_kv_cache_block_table_eq_expanded :
    (∀ (c : KVCache α) (block_table : List Int) (context_len : Nat),
      1 ≤ c.block_size_ →
      (context_len + c.block_size_ - 1) / c.block_size_ ≤ block_table.length →
      c.get_kv_cache_block_table block_table (context_len : Int) =
        c.get_kv_cache ((expanded_slot_ids c.block_size_ block_table context_len).map
          toInt32)) ∧
    (∀ (block_size : Nat) (block_table : List Int) (context_len : Nat),
      (∀ s ∈ expanded_slot_ids block_size block_table context_len,
        -2 ^ 31 ≤ s ∧ s < 2 ^ 31) →
      (expanded_slot_ids block_size block_table context_len).map toInt32 =
        expanded_slot_ids block_size block_table context_len) ∧
    (cache16.block_size_ = 16 ∧
      (expanded_slot_ids 16 [5, 9, 2] 40)[20]? = some 148 ∧
      ((expanded_slot_ids 16 [5, 9, 2] 40).map toInt32)[20]? = some 148 ∧
      (cache16.build_slot_ids [5, 9, 2] 40).bind (fun slot_ids => slot_ids[20]?) = some 148) := by
  refine ⟨?_, ?_, by decide⟩
  · intro c block_table context_len hbs hlen
    unfold get_kv_cache_block_table
    rw [if_neg (by omega), Int.toNat_ofNat,
      build_slot_ids_eq c block_table context_len (fun i hi => div_lt_of_ceil_le hbs hlen hi)]
    simp only
    congr 1
    unfold expanded_slot_ids
    rw [List.map_map]
    rfl
  · intro block_size block_table context_len hfit
    conv_rhs => rw [← List.map_id (expanded_slot_ids block_size block_table context_len)]
    apply List.map_congr_left
    intro s hs
    exact toInt32_of_fits s (hfit s hs).1 (hfit s hs).2

/-- The equality of claim C3 on `cache16` for the block table `[5, 9, 2]` and context
length 40, where the narrowing changes no slot id. -/
theorem get_kv_cache_block_table_eq_expanded_witness :
    cache16.get_kv_cache_block_table [5, 9, 2] ((40 : Nat) : Int) =
      cache16.get_kv_cache ((expanded_slot_ids cache16.block_size_ [5, 9, 2] 40).map toInt32) ∧
    (expanded_slot_ids cache16.block_size_ [5, 9, 2] 40).map toInt32 =
      expanded_slot_ids cache16.block_size_ [5, 9, 2] 40 :=
  ⟨(@get_kv_cache_block_table_eq_expanded Nat).1 cache16 [5, 9, 2] 40 (by decide) (by decide),
    (@get_kv_cache_block_table_eq_expanded Nat).2.1 cache16.block_size_ [5, 9, 2] 40
      (by decide)⟩

/-- Claim C4, as stated, fails on two inputs: for the empty list of slot ids the read returns
no tensors at all, because `torch::stack` rejects an empty list; and in a cache whose head
size is not a multiple of `x` the key slice cannot be reshaped to
`{num_heads_, head_size_}`, so the read of slot 0, which is within capacity, fails. -/
theorem gather_fails_on_empty_list_and_unpacked_cache :
    (example_cache.get_kv_cache []).2 = .error .empty_stack ∧
    (0 < unpacked_cache.capacity ∧
      (unpacked_cache.get_kv_cache [0]).2 = .error .invalid_shape) := by
  decide

/-- Claim C4 (amended): in a cache whose head size is divisible by `x`, for every non-empty
ordered list of non-negative slot ids below the capacity (in any order, repeated ids
allowed), `get_kv_cache(slot_ids)` returns keys and values with one row per entry of
`slot_ids`, row `i` being the key and the value vector stored in block
`slot_ids[i] / block_size` at offset `slot_ids[i] % block_size`; the cache is not changed by
the read. -/
theorem get_kv_cache_gathers_in_order (c : KVCache α) (slot_ids : List Nat)
    (hne : slot_ids ≠ []) (hcap : ∀ s ∈ slot_ids, s < c.capacity)
    (hx : c.x_ ∣ c.head_size_) :
    (c.get_kv_cache (slot_ids.map Int.ofNat)).2 =
      .ok (slot_ids.map (fun s => c.key_at (s / c.block_size_) (s % c.block_size_)),
        slot_ids.map (fun s => c.value_at (s / c.block_size_) (s % c.block_size_))) ∧
    (c.get_kv_cache (slot_ids.map Int.ofNat)).1 = c := by
  rw [get_kv_cache_eq c slot_ids hne hcap (shape_of_dvd c hx)]
  exact ⟨rfl, rfl⟩

/-- The gather of claim C4 on `example_cache` for the slot ids 2, 5, 0, 2. -/
theorem get_kv_cache_gathers_in_order_witness :
    (example_cache.get_kv_cache ([2, 5, 0, 2].map Int.ofNat)).2 =
      .ok ([2, 5, 0, 2].map (fun s =>
          example_cache.key_at (s / example_cache.block_size_) (s % example_cache.block_size_)),
        [2, 5, 0, 2].map (fun s =>
          example_cache.value_at (s / example_cache.block_size_)
            (s % example_cache.block_size_))) ∧
    (example_cache.get_kv_cache ([2, 5, 0, 2].map Int.ofNat)).1 = example_cache :=
  get_kv_cache_gathers_in_order example_cache [2, 5, 0, 2] (by decide) (by decide) (by decide)

end KVCache

/-! ## Claims on the response handler -/

/-- Claim C5: for every buffering threshold `t` at least 1 and every sequence with
`output_offset ≤ num_tokens`, `on_sequence_stream` submits exactly one decode task when the
sequence is finished or `num_tokens - output_offset ≥ t`, a task that captures
`end = num_tokens` and so decodes every token from `output_offset` on, and otherwise it
submits nothing. With `t = 4`, an unfinished sequence with 3 undelivered tokens triggers no
task and one with 4 undelivered tokens triggers one task covering all 4. -/
theorem on_sequence_stream_buffering :
    (∀ (t : Int) (st : HandlerState) (seq : Nat), 1 ≤ t →
      (st.seqs seq).output_offset ≤ (st.seqs seq).num_tokens →
      (((st.seqs seq).is_finished = true ∨
          t ≤ (((st.seqs seq).num_tokens - (st.seqs seq).output_offset : Nat) : Int)) →
        (on_sequence_stream t st seq).response_threadpool_ =
            st.response_threadpool_ ++
              [Task.stream_sequence seq (st.seqs seq).num_tokens (st.seqs seq).finish_reason] ∧
          (st.seqs seq).delta_tokens (st.seqs seq).num_tokens =
            (st.seqs seq).tokens.drop (st.seqs seq).output_offset) ∧
      (¬ ((st.seqs seq).is_finished = true ∨
          t ≤ (((st.seqs seq).num_tokens - (st.seqs seq).output_offset : Nat) : Int)) →
        (on_sequence_stream t st seq).response_threadpool_ = st.response_threadpool_ ∧
          (on_sequence_stream t st seq).trace = st.trace)) ∧
    ((on_sequence_stream 4 (idle_state [1, 2, 3, 4, 5] 2) 0).response_threadpool_ = [] ∧
      (on_sequence_stream 4 (idle_state [1, 2, 3, 4, 5, 6] 2) 0).response_threadpool_ =
        [Task.stream_sequence 0 6 FinishReason.NONE] ∧
      ((idle_state [1, 2, 3, 4, 5, 6] 2).seqs 0).delta_tokens 6 = [3, 4, 5, 6]) := by
  refine ⟨?_, by decide⟩
  intro t st seq ht hle
  have hcond : ((st.seqs seq).is_finished = true ∨
      size_t_sub (st.seqs seq).num_tokens (st.seqs seq).output_offset ≥ int32_to_size_t t) ↔
      ((st.seqs seq).is_finished = true ∨
        t ≤ (((st.seqs seq).num_tokens - (st.seqs seq).output_offset : Nat) : Int)) := by
    rw [size_t_sub_of_le hle]
    have := int32_to_size_t_of_pos t ht
    constructor
    · rintro (h | h)
      · exact Or.inl h
      · right; omega
    · rintro (h | h)
      · exact Or.inl h
      · right; omega
  constructor
  · intro h
    constructor
    · unfold on_sequence_stream
      simp only
      rw [if_pos (hcond.mpr h)]
    · unfold Sequence.delta_tokens Sequence.num_tokens
      rw [List.take_length]
  · intro h
    unfold on_sequence_stream
    simp only
    rw [if_neg (fun hc => h (hcond.mp hc))]
    exact ⟨rfl, rfl⟩

/-- The decision of claim C5 with threshold 2 on a sequence of 5 tokens, 2 of them
delivered: one task, up to token 5. -/
theorem on_sequence_stream_buffering_witness :
    (on_sequence_stream 2 (idle_state [1, 2, 3, 4, 5] 2) 0).response_threadpool_ =
        (idle_state [1, 2, 3, 4, 5] 2).response_threadpool_ ++
          [Task.stream_sequence 0 ((idle_state [1, 2, 3, 4, 5] 2).seqs 0).num_tokens
            ((idle_state [1, 2, 3, 4, 5] 2).seqs 0).finish_reason] ∧
      ((idle_state [1, 2, 3, 4, 5] 2).seqs 0).delta_tokens
          ((idle_state [1, 2, 3, 4, 5] 2).seqs 0).num_tokens =
        (((idle_state [1, 2, 3, 4, 5] 2).seqs 0).tokens.drop
          ((idle_state [1, 2, 3, 4, 5] 2).seqs 0).output_offset) :=
  (on_sequence_stream_buffering.1 2 (idle_state [1, 2, 3, 4, 5] 2) 0 (by decide)
    (by decide)).1 (Or.inr (by decide))

/-- Claim C6: `on_request_finish(request)` calls `release_slots_for_request(request)` once,
then submits one task, the one that will invoke the finish callback; however the thread pool
runs its pending tasks afterwards, the trace continues with the release, then the
submission, then events among which there is no further release, so every `on_finish` event
of the request that follows the call comes after the release event. -/
theorem release_precedes_finish_callback (tokenizer : Tokenizer) (st : HandlerState)
    (request : Request) (picks : List Nat) :
    (on_request_finish st request).response_threadpool_ =
      st.response_threadpool_ ++ [Task.finish_request request] ∧
    (∃ later,
      (run_workers tokenizer (on_request_finish st request) picks).trace =
        st.trace ++ Event.release_slots_for_request request.id ::
          Event.schedule (Task.finish_request request) :: later ∧
      ∀ e ∈ later, ∀ r, e ≠ Event.release_slots_for_request r) ∧
    (∀ (i : Nat) (output : String) (finish_reason : FinishReason) (status : Status),
      st.trace.length ≤ i →
      (run_workers tokenizer (on_request_finish st request) picks).trace[i]? =
        some (Event.on_finish request.id output finish_reason status) →
      st.trace.length < i ∧
        (run_workers tokenizer (on_request_finish st request) picks).trace[st.trace.length]? =
          some (Event.release_slots_for_request request.id)) := by
  obtain ⟨later, hl, hl'⟩ := run_workers_trace tokenizer picks (on_request_finish st request)
  have htrace : (run_workers tokenizer (on_request_finish st request) picks).trace =
      st.trace ++ Event.release_slots_for_request request.id ::
        Event.schedule (Task.finish_request request) :: later := by
    rw [hl]; simp [on_request_finish]
  refine ⟨rfl, ⟨later, htrace, ?_⟩, ?_⟩
  · intro e he r heq
    exact hl' e he (by rw [heq]; trivial)
  · intro i output finish_reason status hi hget
    rw [htrace] at hget ⊢
    constructor
    · rcases Nat.lt_or_ge st.trace.length i with h | h
      · exact h
      · have hi' : i = st.trace.length := by omega
        subst hi'
        rw [List.getElem?_append_right (Nat.le_refl _)] at hget
        simp at hget
    · rw [List.getElem?_append_right (Nat.le_refl _)]
      simp

/-- The trace of claim C6 for a non-streaming and for a streaming request, the thread pool
running the one pending task: release, submission, then the finish callback. -/
theorem release_precedes_finish_callback_witness :
    (run_workers letter_tokenizer (on_request_finish (idle_state [1, 2, 3] 0) plain_request)
        [0]).trace =
      [Event.release_slots_for_request 5, Event.schedule (Task.finish_request plain_request),
        Event.on_finish 5 "aaa" FinishReason.NONE Status.ok] ∧
    (run_workers letter_tokenizer (on_request_finish (idle_state [1, 2, 3] 0) failed_request)
        [0]).trace =
      [Event.release_slots_for_request 7, Event.schedule (Task.finish_request failed_request),
        Event.on_finish 7 "" FinishReason.NONE Status.ok] ∧
    (on_request_finish (idle_state [1, 2, 3] 0) plain_request).response_threadpool_ =
      (idle_state [1, 2, 3] 0).response_threadpool_ ++ [Task.finish_request plain_request] :=
  ⟨by decide, by decide,
    (release_precedes_finish_callback letter_tokenizer (idle_state [1, 2, 3] 0) plain_request
      [0]).1⟩

/-- Claim C7, as stated, fails for a non-streaming request that does not hold exactly one
sequence: the task stops at its `GCHECK` and the finish callback is not invoked. -/
theorem finish_task_stops_without_single_sequence :
    request_without_sequence.stream = false ∧
    (on_request_finish (idle_state [] 0) request_without_sequence).response_threadpool_ =
      [Task.finish_request request_without_sequence] ∧
    (run_task letter_tokenizer (idle_state [] 0)
      (Task.finish_request request_without_sequence)).trace = [Event.check_failure] := by
  decide

/-- Claim C7 (amended): `on_request_finish` submits one task for the request. Run for a
streaming request, or for a non-streaming request with exactly one sequence, the task invokes
the finish callback exactly once: with empty text (and reason NONE) for a streaming request,
and for a non-streaming request with the text that `decode_delta_text` gives for that
sequence up to `num_tokens` together with that sequence's finish reason. Run for a
non-streaming request with another number of sequences, the task fails its check and does
not invoke the callback. -/
theorem finish_task_output :
    (∀ (st : HandlerState) (request : Request),
      (on_request_finish st request).response_threadpool_ =
        st.response_threadpool_ ++ [Task.finish_request request]) ∧
    (∀ (tokenizer : Tokenizer) (st : HandlerState) (request : Request),
      request.stream = true →
      (run_task tokenizer st (Task.finish_request request)).trace =
        st.trace ++ [Event.on_finish request.id "" FinishReason.NONE Status.default]) ∧
    (∀ (tokenizer : Tokenizer) (st : HandlerState) (request : Request) (seq : Nat),
      request.stream = false → request.sequences = [seq] →
      (run_task tokenizer st (Task.finish_request request)).trace =
        st.trace ++ [Event.on_finish request.id
          ((st.seqs seq).decode_delta_text (st.seqs seq).num_tokens tokenizer).1
          (st.seqs seq).finish_reason Status.default]) ∧
    (∀ (tokenizer : Tokenizer) (st : HandlerState) (request : Request),
      request.stream = false → request.sequences.length ≠ 1 →
      (run_task tokenizer st (Task.finish_request request)).trace =
        st.trace ++ [Event.check_failure]) :=
  ⟨fun _ _ => rfl, run_task_finish_stream, run_task_finish_single, run_task_finish_check⟩

/-- The outputs of claim C7 for a streaming request, for a non-streaming request with one
sequence of three tokens, and for a non-streaming request without a sequence. -/
theorem finish_task_output_witness :
    (run_task letter_tokenizer (idle_state [1, 2, 3] 0) (Task.finish_request failed_request)).trace =
      (idle_state [1, 2, 3] 0).trace ++
        [Event.on_finish failed_request.id "" FinishReason.NONE Status.default] ∧
    (run_task letter_tokenizer (idle_state [1, 2, 3] 0) (Task.finish_request plain_request)).trace =
      (idle_state [1, 2, 3] 0).trace ++ [Event.on_finish plain_request.id
        ((((idle_state [1, 2, 3] 0).seqs 0).decode_delta_text
          ((idle_state [1, 2, 3] 0).seqs 0).num_tokens letter_tokenizer).1)
        ((idle_state [1, 2, 3] 0).seqs 0).finish_reason Status.default] ∧
    (run_task letter_tokenizer (idle_state [1, 2, 3] 0)
      (Task.finish_request request_without_sequence)).trace =
      (idle_state [1, 2, 3] 0).trace ++ [Event.check_failure] :=
  ⟨finish_task_output.2.1 letter_tokenizer (idle_state [1, 2, 3] 0) failed_request rfl,
    finish_task_output.2.2.1 letter_tokenizer (idle_state [1, 2, 3] 0) plain_request 0 rfl rfl,
    finish_task_output.2.2.2 letter_tokenizer (idle_state [1, 2, 3] 0) request_without_sequence
      rfl (by decide)⟩

namespace KVCache
variable {α : Type}

/-- Claim C8, as stated, fails in a build with `NDEBUG`, where the two `DCHECK_EQ` are
compiled out: with one slot id, two key rows and two value rows the counts differ, yet the
call fails no check, succeeds and writes row 0 to slot 5 (block 2, offset 1); with two slot
ids and one key row the call fails no check either, and has written row 0 to slot 5 when
`keys[1]` is found out of range. -/
theorem batch_size_check_compiled_out :
    (([5] : List Int).length ≠ example_keys.length ∧
      (example_cache.set_kv_cache false [5] example_keys example_values).2 = .ok () ∧
      (example_cache.set_kv_cache false [5] example_keys example_values).1.key_at 2 1 =
        [1, 2, 3, 4, 5, 6, 7, 8] ∧
      example_cache.key_at 2 1 = [0, 0, 0, 0, 0, 0, 0, 0]) ∧
    (([5, 2] : List Int).length ≠ [[1, 2, 3, 4, 5, 6, 7, 8]].length ∧
      (example_cache.set_kv_cache false [5, 2] [[1, 2, 3, 4, 5, 6, 7, 8]] example_values).2 =
        .error .index_out_of_range ∧
      (example_cache.set_kv_cache false [5, 2] [[1, 2, 3, 4, 5, 6, 7, 8]]
        example_values).1.key_at 2 1 = [1, 2, 3, 4, 5, 6, 7, 8]) := by
  decide

/-- Claim C8 (amended): in a build in which `DCHECK_EQ` is active (no `NDEBUG`),
`set_kv_cache` fails its precondition check exactly when the number of slot ids differs from
the number of key rows or from the number of value rows; in that case the cache is left as it
was; and when the three counts are equal the check passes and the write proceeds: on a cache
with `0 < x ≤ head_size`, rows of the shapes that the cache stores and non-negative slot ids
below the capacity, the call succeeds and the cache holds, at the address
`slot_ids[i] / block_size`, `slot_ids[i] % block_size`, key row `i` and value row `i`, for
every `i` whose slot id does not occur again at a larger index. -/
theorem set_kv_cache_batch_size_check :
    (∀ (c : KVCache α) (slot_ids : List Int) (keys values : List (List α)),
      (c.set_kv_cache true slot_ids keys values).2 = .error .check_failed ↔
        (slot_ids.length ≠ keys.length ∨ slot_ids.length ≠ values.length)) ∧
    (∀ (c : KVCache α) (slot_ids : List Int) (keys values : List (List α)),
      (slot_ids.length ≠ keys.length ∨ slot_ids.length ≠ values.length) →
      (c.set_kv_cache true slot_ids keys values).1 = c) ∧
    (∀ (c : KVCache α) (slot_ids : List Nat) (keys values : List (List α)),
      slot_ids.length = keys.length → slot_ids.length = values.length →
      0 < c.x_ → c.x_ ≤ c.head_size_ →
      (∀ key ∈ keys, key.length = c.num_heads_ * (c.head_size_ / c.x_ * c.x_)) →
      (∀ value ∈ values, value.length = c.num_heads_ * c.head_size_) →
      (∀ s ∈ slot_ids, s < c.capacity) →
      (c.set_kv_cache true (slot_ids.map Int.ofNat) keys values).2 = .ok () ∧
      ∀ (i : Nat) (hi : i < slot_ids.length),
        (∀ (j : Nat) (hj : j < slot_ids.length), i < j → slot_ids[j] ≠ slot_ids[i]) →
        keys[i]? = some ((c.set_kv_cache true (slot_ids.map Int.ofNat) keys values).1.key_at
          (slot_ids[i] / c.block_size_) (slot_ids[i] % c.block_size_)) ∧
        values[i]? = some ((c.set_kv_cache true (slot_ids.map Int.ofNat) keys
          values).1.value_at (slot_ids[i] / c.block_size_) (slot_ids[i] % c.block_size_))) := by
  refine ⟨?_, ?_, ?_⟩
  · intro c slot_ids keys values
    by_cases h1 : slot_ids.length = keys.length
    · by_cases h2 : slot_ids.length = values.length
      · rw [set_kv_cache_eq_loop c true slot_ids keys values h1 h2]
        constructor
        · intro h
          exact absurd h (set_kv_cache_loop_ne_check_failed keys values slot_ids 0 c)
        · rintro (h | h)
          · exact absurd h1 h
          · exact absurd h2 h
      · unfold set_kv_cache
        rw [if_neg (fun h => h.2 h1), if_pos ⟨rfl, h2⟩]
        exact ⟨fun _ => Or.inr h2, fun _ => rfl⟩
    · unfold set_kv_cache
      rw [if_pos ⟨rfl, h1⟩]
      exact ⟨fun _ => Or.inl h1, fun _ => rfl⟩
  · intro c slot_ids keys values h
    unfold set_kv_cache
    by_cases h1 : slot_ids.length = keys.length
    · have h2 : slot_ids.length ≠ values.length := h.resolve_left (not_not.mpr h1)
      rw [if_neg (fun h => h.2 h1), if_pos ⟨rfl, h2⟩]
    · rw [if_pos ⟨rfl, h1⟩]
  · intro c slot_ids keys values hK hV hx0 hxle hKrow hVrow hcap
    rw [set_kv_cache_eq_loop c true (slot_ids.map Int.ofNat) keys values (by simp [hK])
      (by simp [hV])]
    refine ⟨(set_kv_cache_loop_frame keys values c.num_heads_ _ c.head_size_ slot_ids 0 c
      rfl rfl ⟨hx0, hxle⟩ hKrow hVrow (by omega) (by omega) hcap).1, ?_⟩
    intro i hi hlast
    have h := set_kv_cache_loop_stores keys values c.num_heads_ _ c.head_size_
      slot_ids 0 c rfl rfl ⟨hx0, hxle⟩ hKrow hVrow (by omega) (by omega) hcap i hi hlast
    simpa only [Nat.zero_add] using h

/-- The check of claim C8 on `example_cache`: two slot ids with one key row fail it and
write nothing; two slot ids with two key rows and two value rows pass it, the call succeeds
and row 0 is stored at slot 5 (block 2, offset 1). -/
theorem set_kv_cache_batch_size_check_witness :
    ((example_cache.set_kv_cache true [5, 2] [[1, 2, 3, 4, 5, 6, 7, 8]] example_values).2 =
        .error .check_failed ∧
      (example_cache.set_kv_cache true [5, 2] [[1, 2, 3, 4, 5, 6, 7, 8]] example_values).1 =
        example_cache) ∧
    (example_cache.set_kv_cache true ([5, 2].map Int.ofNat) example_keys example_values).2 =
      .ok () ∧
    example_keys[0]? = some ((example_cache.set_kv_cache true ([5, 2].map Int.ofNat)
      example_keys example_values).1.key_at 2 1) ∧
    example_values[0]? = some ((example_cache.set_kv_cache true ([5, 2].map Int.ofNat)
      example_keys example_values).1.value_at 2 1) :=
  ⟨⟨(set_kv_cache_batch_size_check.1 example_cache [5, 2] [[1, 2, 3, 4, 5, 6, 7, 8]]
        example_values).mpr (Or.inl (by decide)),
      set_kv_cache_batch_size_check.2.1 example_cache [5, 2] [[1, 2, 3, 4, 5, 6, 7, 8]]
        example_values (Or.inl (by decide))⟩,
    (set_kv_cache_batch_size_check.2.2 example_cache [5, 2] example_keys example_values
      rfl rfl (by decide) (by decide) (by decide) (by decide) (by decide)).1,
    (set_kv_cache_batch_size_check.2.2 example_cache [5, 2] example_keys example_values
      rfl rfl (by decide) (by decide) (by decide) (by decide) (by decide)).2 0 (by decide)
      (by decide)⟩

end KVCache

/-- Claim C9, as stated, fails: for a request marked with an error status, the finish path
releases the blocks and invokes the finish callback, but with the status `Status()`, which
is OK, and not with the request's error status. -/
theorem finish_callback_drops_error_status :
    failed_request.status = Status.error "execution failed" ∧
    (run_workers letter_tokenizer (on_request_finish (idle_state [] 0) failed_request) [0]).trace =
      [Event.release_slots_for_request failed_request.id,
        Event.schedule (Task.finish_request failed_request),
        Event.on_finish failed_request.id "" FinishReason.NONE Status.default] ∧
    Status.default = Status.ok ∧ Status.default ≠ failed_request.status := by
  decide

/-- Claim C9 (amended): for every request, also one marked with an error status,
`on_request_finish` releases the request's blocks and submits the task that invokes the
finish callback; run for a streaming request or a request with one sequence, the task
invokes the callback once, and each invocation of a finish callback by that task passes the
default-constructed status `Status()`, whatever status the request carries, so the request's
own status does not reach the callback. -/
theorem finish_callback_status (tokenizer : Tokenizer) (st st' : HandlerState)
    (request : Request) :
    (on_request_finish st request).trace =
      st.trace ++ [Event.release_slots_for_request request.id,
        Event.schedule (Task.finish_request request)] ∧
    (on_request_finish st request).response_threadpool_ =
      st.response_threadpool_ ++ [Task.finish_request request] ∧
    ∃ later, (run_task tokenizer st' (Task.finish_request request)).trace = st'.trace ++ later ∧
      (request.stream = true ∨ request.sequences.length = 1 →
        ∃ output finish_reason,
          later = [Event.on_finish request.id output finish_reason Status.default]) ∧
      ∀ (r : Nat) (output : String) (finish_reason : FinishReason) (status : Status),
        Event.on_finish r output finish_reason status ∈ later → status = Status.default := by
  refine ⟨rfl, rfl, ?_⟩
  by_cases h : request.stream = true
  · exact ⟨_, run_task_finish_stream tokenizer st' request h, fun _ => ⟨_, _, rfl⟩, by simp⟩
  · have h' : request.stream = false := by simpa using h
    by_cases hs : request.sequences.length = 1
    · obtain ⟨seq, hseq⟩ := List.length_eq_one.mp hs
      exact ⟨_, run_task_finish_single tokenizer st' request seq h' hseq,
        fun _ => ⟨_, _, rfl⟩, by simp⟩
    · refine ⟨_, run_task_finish_check tokenizer st' request h' hs, ?_, by simp⟩
      rintro (hc | hc)
      · exact absurd hc h
      · exact absurd hc hs

/-- The finish path of claim C9 for `failed_request`: release and submission. -/
theorem finish_callback_status_witness :
    (on_request_finish (idle_state [] 0) failed_request).trace =
      (idle_state [] 0).trace ++ [Event.release_slots_for_request failed_request.id,
        Event.schedule (Task.finish_request failed_request)] ∧
    (on_request_finish (idle_state [] 0) failed_request).response_threadpool_ =
      (idle_state [] 0).response_threadpool_ ++ [Task.finish_request failed_request] :=
  ⟨(finish_callback_status letter_tokenizer (idle_state [] 0) (idle_state [] 0)
      failed_request).1,
    (finish_callback_status letter_tokenizer (idle_state [] 0) (idle_state [] 0)
      failed_request).2.1⟩

/-! ## Claim on the scheduler's priority queue -/

/-- Claim C10: for every finite list of requests pushed into the priority queue, every order
in which the queue can pop them is a rearrangement of the pushed requests sorted by priority
class (HIGH before MEDIUM before LOW) and, within a class, by arrival time; popping until the
queue is empty yields such an order; and requests enqueued as
`[LOW@t1, HIGH@t2, MEDIUM@t3, HIGH@t4]` with `t1 < t2 < t3 < t4` are selected as
`[HIGH@t2, HIGH@t4, MEDIUM@t3, LOW@t1]`. -/
theorem pop_order_by_priority_then_arrival :
    (∀ (requests out : List Request),
      PopOrder (requests.foldl MinHeap.push MinHeap.empty) out →
      out.Perm requests ∧ out.Pairwise SelectedBefore) ∧
    (∀ requests : List Request,
      PopOrder (requests.foldl MinHeap.push MinHeap.empty)
        (requests.foldl MinHeap.push MinHeap.empty).pop_all) ∧
    (∀ t1 t2 t3 t4 : Nat, t1 < t2 → t2 < t3 → t3 < t4 →
      ([request_at 1 .LOW t1, request_at 2 .HIGH t2, request_at 3 .MEDIUM t3,
        request_at 4 .HIGH t4].foldl MinHeap.push MinHeap.empty).pop_all =
      [request_at 2 .HIGH t2, request_at 4 .HIGH t4, request_at 3 .MEDIUM t3,
        request_at 1 .LOW t1]) := by
  refine ⟨?_, ?_, ?_⟩
  · intro requests out h
    have := popOrder_perm_sorted _ _ h
    rw [foldl_push] at this
    simpa [MinHeap.empty] using this
  · intro requests
    exact pop_n_popOrder _ _ rfl
  · intro t1 t2 t3 t4 h12 h23 h34
    have e1 : ¬ t4 < t2 := by omega
    simp [MinHeap.pop_all, MinHeap.pop_n, MinHeap.top?, MinHeap.pop, MinHeap.push, MinHeap.empty,
      MinHeap.lower, RequestPtrGreater, request_at, RequestPriority.rank, List.erase_cons, e1]

/-- The selection order of claim C10 at the arrival times 10, 20, 30, 40, and the sortedness
of the order in which the queue is emptied. -/
theorem pop_order_by_priority_then_arrival_witness :
    ([request_at 1 .LOW 10, request_at 2 .HIGH 20, request_at 3 .MEDIUM 30,
        request_at 4 .HIGH 40].foldl MinHeap.push MinHeap.empty).pop_all =
      [request_at 2 .HIGH 20, request_at 4 .HIGH 40, request_at 3 .MEDIUM 30,
        request_at 1 .LOW 10] ∧
    (([request_at 1 .LOW 10, request_at 2 .HIGH 20, request_at 3 .MEDIUM 30,
        request_at 4 .HIGH 40].foldl MinHeap.push MinHeap.empty).pop_all.Perm
        [request_at 1 .LOW 10, request_at 2 .HIGH 20, request_at 3 .MEDIUM 30,
          request_at 4 .HIGH 40] ∧
      ([request_at 1 .LOW 10, request_at 2 .HIGH 20, request_at 3 .MEDIUM 30,
        request_at 4 .HIGH 40].foldl MinHeap.push MinHeap.empty).pop_all.Pairwise
        SelectedBefore) :=
  ⟨pop_order_by_priority_then_arrival.2.2 10 20 30 40 (by decide) (by decide) (by decide),
    pop_order_by_priority_then_arrival.1 _ _ (pop_order_by_priority_then_arrival.2.1 _)⟩

/-! ## Claim on the Internlm prompt template -/

namespace hf

theorem foldl_append_eq (l : List String) :
    ∀ acc : String, l.foldl (fun r s => r ++ s) acc = acc ++ l.foldl (fun r s => r ++ s) "" := by
  induction l with
  | nil => intro acc; simp
  | cons a rest ih =>
    intro acc
    simp only [List.foldl_cons]
    rw [ih (acc ++ a), ih ("" ++ a), String.empty_append, String.append_assoc]

theorem join_cons (a : String) (l : List String) : String.join (a :: l) = a ++ String.join l := by
  unfold String.join
  simp only [List.foldl_cons]
  rw [foldl_append_eq l ("" ++ a), String.empty_append]

theorem get_prompt_loop_eq (messages : List String) :
    ∀ (i : Nat) (ss : String),
      InternlmDialog.get_prompt_loop messages i ss =
        ss ++ String.join ((messages.enumFrom i).map fun p => internlm_turn p.1 p.2) := by
  induction messages with
  | nil => intro i ss; simp [InternlmDialog.get_prompt_loop, String.join]
  | cons message rest ih =>
    intro i ss
    simp only [InternlmDialog.get_prompt_loop, List.enumFrom_cons, List.map_cons, join_cons]
    by_cases h : i % 2 = 0
    · rw [if_pos h, ih]
      simp only [internlm_turn, if_pos h, String.append_assoc]
    · rw [if_neg h, ih]
      simp only [internlm_turn, if_neg h, String.append_assoc]

theorem stream_of_system_message (s : String) :
    (if ¬ s.isEmpty then "" ++ s else "") = s := by
  by_cases h : s.isEmpty
  · rw [if_neg (not_not.mpr h)]
    exact ((String.isEmpty_iff s).mp h).symm
  · rw [if_pos h, String.empty_append]

/-- Claim C11: for every system message `s` and every message list `m`,
`InternlmDialog::get_prompt` returns no prompt exactly when `m` has an even number of
messages (zero included), and otherwise returns `s` followed, for each index `i` in order,
by `"<s><|User|>:" + m[i] + "<eoh>\n"` when `i` is even and `"<|Bot|>:" + m[i] + "<eoa>\n"`
when `i` is odd, followed by the final `"<|Bot|>:"`. -/
theorem internlm_get_prompt_template :
    (∀ (s : String) (m : List String),
      (InternlmDialog.get_prompt s m = none ↔ m.length % 2 = 0) ∧
      InternlmDialog.get_prompt s m = internlm_prompt s m) ∧
    InternlmDialog.get_prompt "sys" ["hi", "hello", "bye"] =
      some "sys<s><|User|>:hi<eoh>\n<|Bot|>:hello<eoa>\n<s><|User|>:bye<eoh>\n<|Bot|>:" := by
  refine ⟨?_, by decide⟩
  intro s m
  unfold InternlmDialog.get_prompt internlm_prompt
  by_cases h : m.length % 2 = 0
  · simp [h]
  · simp only [h, if_false]
    refine ⟨by simp, ?_⟩
    rw [stream_of_system_message, get_prompt_loop_eq]
    rfl

end hf

/-! ## Further claims on the KV cache -/

namespace KVCache
variable {α : Type}

/-- Claim C12: in either build, in a valid call of `set_kv_cache` (a cache with
`0 < x ≤ head_size`, one key row and one value row per slot id, rows of the shapes that the
cache stores, non-negative slot ids below the capacity) the call succeeds; the key and the
value vector at every block `b` and offset `o` that is not the address
`slot_id / block_size`, `slot_id % block_size` of a slot id of the call are the same after
the call as before it; and at the address of a slot id the cache holds afterwards the rows
of the largest index at which that slot id occurs. -/
theorem set_kv_cache_touches_only_addressed_slots (c : KVCache α) (DCHECK_IS_ON : Bool)
    (slot_ids : List Nat) (keys values : List (List α))
    (hx0 : 0 < c.x_) (hxle : c.x_ ≤ c.head_size_)
    (hK : keys.length = slot_ids.length) (hV : values.length = slot_ids.length)
    (hKrow : ∀ key ∈ keys, key.length = c.num_heads_ * (c.head_size_ / c.x_ * c.x_))
    (hVrow : ∀ value ∈ values, value.length = c.num_heads_ * c.head_size_)
    (hcap : ∀ s ∈ slot_ids, s < c.capacity) :
    (c.set_kv_cache DCHECK_IS_ON (slot_ids.map Int.ofNat) keys values).2 = .ok () ∧
    (∀ b o : Nat, (∀ s ∈ slot_ids, ¬ (b = s / c.block_size_ ∧ o = s % c.block_size_)) →
      (c.set_kv_cache DCHECK_IS_ON (slot_ids.map Int.ofNat) keys values).1.key_at b o =
        c.key_at b o ∧
      (c.set_kv_cache DCHECK_IS_ON (slot_ids.map Int.ofNat) keys values).1.value_at b o =
        c.value_at b o) ∧
    (∀ (i j : Nat) (hi : i < slot_ids.length) (hj : j < slot_ids.length),
      slot_ids[i] = slot_ids[j] →
      (∀ (j' : Nat) (hj' : j' < slot_ids.length), j < j' → slot_ids[j'] ≠ slot_ids[j]) →
      keys[j]? = some ((c.set_kv_cache DCHECK_IS_ON (slot_ids.map Int.ofNat) keys
        values).1.key_at (slot_ids[i] / c.block_size_) (slot_ids[i] % c.block_size_)) ∧
      values[j]? = some ((c.set_kv_cache DCHECK_IS_ON (slot_ids.map Int.ofNat) keys
        values).1.value_at (slot_ids[i] / c.block_size_) (slot_ids[i] % c.block_size_))) := by
  rw [set_kv_cache_eq_loop c DCHECK_IS_ON (slot_ids.map Int.ofNat) keys values (by simp [hK])
    (by simp [hV])]
  obtain ⟨hok, _, hframe⟩ := set_kv_cache_loop_frame keys values c.num_heads_ _ c.head_size_
    slot_ids 0 c rfl rfl ⟨hx0, hxle⟩ hKrow hVrow (by omega) (by omega) hcap
  refine ⟨hok, hframe, ?_⟩
  intro i j hi hj hij hlast
  have h := set_kv_cache_loop_stores keys values c.num_heads_ _ c.head_size_
    slot_ids 0 c rfl rfl ⟨hx0, hxle⟩ hKrow hVrow (by omega) (by omega) hcap j hj hlast
  rw [hij]
  simpa only [Nat.zero_add] using h

/-- The frame of claim C12 on `example_cache` for the slot ids 5, 2, 5: slot 1 (block 0,
offset 1) keeps its vectors, and slot 5 (block 2, offset 1) holds row 2, not row 0. -/
theorem set_kv_cache_touches_only_addressed_slots_witness :
    (example_cache.set_kv_cache true ([5, 2, 5].map Int.ofNat) example_keys3
      example_values3).2 = .ok () ∧
    ((example_cache.set_kv_cache true ([5, 2, 5].map Int.ofNat) example_keys3
        example_values3).1.key_at 0 1 = example_cache.key_at 0 1 ∧
      (example_cache.set_kv_cache true ([5, 2, 5].map Int.ofNat) example_keys3
        example_values3).1.value_at 0 1 = example_cache.value_at 0 1) ∧
    (example_keys3[2]? = some ((example_cache.set_kv_cache true ([5, 2, 5].map Int.ofNat)
        example_keys3 example_values3).1.key_at 2 1) ∧
      example_values3[2]? = some ((example_cache.set_kv_cache true ([5, 2, 5].map Int.ofNat)
        example_keys3 example_values3).1.value_at 2 1)) :=
  ⟨(set_kv_cache_touches_only_addressed_slots example_cache true [5, 2, 5] example_keys3
      example_values3 (by decide) (by decide) rfl rfl (by decide) (by decide) (by decide)).1,
    (set_kv_cache_touches_only_addressed_slots example_cache true [5, 2, 5] example_keys3
      example_values3 (by decide) (by decide) rfl rfl (by decide) (by decide)
      (by decide)).2.1 0 1 (by decide),
    (set_kv_cache_touches_only_addressed_slots example_cache true [5, 2, 5] example_keys3
      example_values3 (by decide) (by decide) rfl rfl (by decide) (by decide)
      (by decide)).2.2 0 2 (by decide) (by decide) (by decide) (by decide)⟩

theorem getD_map_ofNat (l : List Nat) (k : Nat) :
    (l.map Int.ofNat).getD k 0 = ((l.getD k 0 : Nat) : Int) := by
  by_cases h : k < l.length
  · rw [List.getD_eq_getElem _ _ (by simpa using h), List.getD_eq_getElem _ _ h]
    simp
  · rw [List.getD_eq_default _ _ (by simpa using h), List.getD_eq_default _ _ (by omega)]
    rfl

theorem expanded_slot_ids_ofNat (bs : Nat) (block_table : List Nat) (n : Nat) :
    expanded_slot_ids bs (block_table.map Int.ofNat) n =
      (List.range n).map fun i =>
        ((block_table.getD (i / bs) 0 * bs + i % bs : Nat) : Int) := by
  unfold expanded_slot_ids
  apply List.map_congr_left
  intro i _
  rw [getD_map_ofNat]
  push_cast
  rfl

theorem address_of_slot (a bs r : Nat) (hr : r < bs) :
    (a * bs + r) / bs = a ∧ (a * bs + r) % bs = r := by
  have hbs : 0 < bs := by omega
  constructor
  · rw [Nat.add_comm, Nat.add_mul_div_right _ _ hbs, Nat.div_eq_of_lt hr, Nat.zero_add]
  · rw [Nat.add_comm, Nat.add_mul_mod_self_right, Nat.mod_eq_of_lt hr]

/-- Claim C13, as stated, fails where a slot id does not fit `int32_t`: with 4 slots per
block and the block table `[0, 2 ^ 30]` (non-negative, distinct entries, context length 5
within its 8 positions), position 4 gets `2 ^ 30 * 4 = 2 ^ 32` narrowed to slot 0, the slot
of position 0, and slot 0 decodes to block 0, not to block `2 ^ 30`. -/
theorem block_table_slot_ids_alias_after_wrap :
    1 ≤ quad_cache.block_size_ ∧ ([0, 1073741824] : List Nat).Nodup ∧
    5 ≤ ([0, 1073741824] : List Nat).length * quad_cache.block_size_ ∧
    quad_cache.build_slot_ids [0, 1073741824] 5 = some [0, 1, 2, 3, 0] ∧
    ¬ ([0, 1, 2, 3, 0] : List Int).Nodup ∧
    (0 : Int).tdiv quad_cache.block_size_ ≠ 1073741824 := by
  decide

/-- Claim C13 (amended): for every block size at least 1, every block table whose entries
are non-negative and pairwise distinct, and every context length at most
`block_table length * block_size`, provided each slot id
`block_table[i / block_size] * block_size + i % block_size` is below `2 ^ 31` (fits a signed
32-bit integer), the loop of `get_kv_cache(block_table, context_len)` builds exactly these
slot ids for `i` in `[0, context_len)`, they are pairwise distinct, and each one decodes
under the write addressing (`slot / block_size`, `slot % block_size`) back to
(`block_table[i / block_size]`, `i % block_size`). -/
theorem block_table_slot_ids_distinct (c : KVCache α) (block_table : List Nat)
    (context_len : Nat) (hbs : 1 ≤ c.block_size_) (hnd : block_table.Nodup)
    (hlen : context_len ≤ block_table.length * c.block_size_)
    (hfit : ∀ i, i < context_len →
      block_table.getD (i / c.block_size_) 0 * c.block_size_ + i % c.block_size_ < 2 ^ 31) :
    c.build_slot_ids (block_table.map Int.ofNat) context_len =
      some (expanded_slot_ids c.block_size_ (block_table.map Int.ofNat) context_len) ∧
    (expanded_slot_ids c.block_size_ (block_table.map Int.ofNat) context_len).Nodup ∧
    (∀ i, i < context_len →
      ∃ s, (expanded_slot_ids c.block_size_ (block_table.map Int.ofNat) context_len)[i]? =
          some s ∧
        s.tdiv c.block_size_ = ((block_table.getD (i / c.block_size_) 0 : Nat) : Int) ∧
        s.tmod c.block_size_ = ((i % c.block_size_ : Nat) : Int)) := by
  have hidx : ∀ i, i < context_len → i / c.block_size_ < block_table.length := by
    intro i hi
    exact Nat.div_lt_of_lt_mul (by rw [Nat.mul_comm]; omega)
  have hmod : ∀ i : Nat, i % c.block_size_ < c.block_size_ := fun i => Nat.mod_lt _ (by omega)
  refine ⟨?_, ?_, ?_⟩
  · rw [build_slot_ids_eq c _ context_len (fun i hi => by simpa using hidx i hi)]
    congr 1
    unfold expanded_slot_ids
    apply List.map_congr_left
    intro i hi
    have hi' : i < context_len := List.mem_range.mp hi
    have := hfit i hi'
    apply toInt32_of_fits
    · rw [getD_map_ofNat]
      have h0 : (0 : Int) ≤ ((block_table.getD (i / c.block_size_) 0 : Nat) : Int) *
          (c.block_size_ : Int) + ((i % c.block_size_ : Nat) : Int) := by positivity
      omega
    · rw [getD_map_ofNat]
      have : ((block_table.getD (i / c.block_size_) 0 * c.block_size_ + i % c.block_size_
          : Nat) : Int) < 2 ^ 31 := by exact_mod_cast this
      push_cast at this
      exact this
  · rw [expanded_slot_ids_ofNat]
    apply List.Nodup.map_on _ (List.nodup_range context_len)
    intro i hi j hj heq
    have hi' : i < context_len := List.mem_range.mp hi
    have hj' : j < context_len := List.mem_range.mp hj
    have heq' : block_table.getD (i / c.block_size_) 0 * c.block_size_ + i % c.block_size_ =
        block_table.getD (j / c.block_size_) 0 * c.block_size_ + j % c.block_size_ := by
      exact_mod_cast heq
    have ai := address_of_slot (block_table.getD (i / c.block_size_) 0) c.block_size_ _ (hmod i)
    have aj := address_of_slot (block_table.getD (j / c.block_size_) 0) c.block_size_ _ (hmod j)
    rw [heq'] at ai
    have hb : block_table.getD (i / c.block_size_) 0 = block_table.getD (j / c.block_size_) 0 :=
      ai.1.symm.trans aj.1
    have hm : i % c.block_size_ = j % c.block_size_ := ai.2.symm.trans aj.2
    rw [List.getD_eq_getElem _ _ (hidx i hi'), List.getD_eq_getElem _ _ (hidx j hj')] at hb
    have hd : i / c.block_size_ = j / c.block_size_ := (List.Nodup.getElem_inj_iff hnd).mp hb
    exact slot_eq_of_address_eq hd hm
  · intro i hi
    rw [expanded_slot_ids_ofNat]
    refine ⟨((block_table.getD (i / c.block_size_) 0 * c.block_size_ + i % c.block_size_
      : Nat) : Int), ?_, ?_, ?_⟩
    · rw [List.getElem?_eq_getElem (by simpa using hi)]
      simp only [List.getElem_map, List.getElem_range]
    · rw [← Int.ofNat_tdiv,
        (address_of_slot (block_table.getD (i / c.block_size_) 0) c.block_size_ _ (hmod i)).1]
    · rw [← Int.ofNat_tmod,
        (address_of_slot (block_table.getD (i / c.block_size_) 0) c.block_size_ _ (hmod i)).2]

/-- The translation of claim C13 on `cache16` for the block table `[5, 9, 2]` and context
length 40. -/
theorem block_table_slot_ids_distinct_witness :
    cache16.build_slot_ids ([5, 9, 2].map Int.ofNat) 40 =
      some (expanded_slot_ids cache16.block_size_ ([5, 9, 2].map Int.ofNat) 40) ∧
    (expanded_slot_ids cache16.block_size_ ([5, 9, 2].map Int.ofNat) 40).Nodup :=
  ⟨(block_table_slot_ids_distinct cache16 [5, 9, 2] 40 (by decide) (by decide) (by decide)
      (by decide)).1,
    (block_table_slot_ids_distinct cache16 [5, 9, 2] 40 (by decide) (by decide) (by decide)
      (by decide)).2.1⟩

end KVCache

/-! ## Further claim on the response handler -/

theorem run_task_stream_trace (tokenizer : Tokenizer) (st : HandlerState) (seq end_ : Nat)
    (finish_reason : FinishReason) :
    (run_task tokenizer st (Task.stream_sequence seq end_ finish_reason)).trace =
      st.trace ++
        (if ((st.seqs seq).decode_delta_text end_ tokenizer).1 ≠ "" ∨
            finish_reason ≠ FinishReason.NONE then
          [Event.stream_delta seq ((st.seqs seq).decode_delta_text end_ tokenizer).1
            finish_reason]
        else []) := by
  simp only [run_task]
  split
  · rfl
  · simp

/-- Claim C14: a decode task submitted by `on_sequence_stream` captures the finish reason
that the sequence has at submission; whatever the state in which the task runs, it invokes
`stream_delta` (once, with the decoded delta and the captured finish reason) exactly when
the decoded delta text is not empty or the captured finish reason is not NONE, and with an
empty delta and finish reason NONE it delivers nothing. -/
theorem empty_delta_not_streamed :
    (∀ (t : Int) (st : HandlerState) (seq : Nat),
      (on_sequence_stream t st seq).response_threadpool_ = st.response_threadpool_ ∨
      (on_sequence_stream t st seq).response_threadpool_ =
        st.response_threadpool_ ++
          [Task.stream_sequence seq (st.seqs seq).num_tokens (st.seqs seq).finish_reason]) ∧
    (∀ (tokenizer : Tokenizer) (st : HandlerState) (seq end_ : Nat)
        (finish_reason : FinishReason),
      ∃ delivered,
        (run_task tokenizer st (Task.stream_sequence seq end_ finish_reason)).trace =
          st.trace ++ delivered ∧
        ((((st.seqs seq).decode_delta_text end_ tokenizer).1 ≠ "" ∨
            finish_reason ≠ FinishReason.NONE) →
          delivered = [Event.stream_delta seq
            ((st.seqs seq).decode_delta_text end_ tokenizer).1 finish_reason]) ∧
        ((((st.seqs seq).decode_delta_text end_ tokenizer).1 = "" ∧
            finish_reason = FinishReason.NONE) → delivered = [])) ∧
    ((run_task letter_tokenizer (idle_state [1, 2] 2)
        (Task.stream_sequence 0 2 FinishReason.NONE)).trace = [] ∧
      (run_task letter_tokenizer (idle_state [1, 2] 2)
        (Task.stream_sequence 0 2 FinishReason.STOP)).trace =
        [Event.stream_delta 0 "" FinishReason.STOP] ∧
      (run_task letter_tokenizer (idle_state [1, 2] 0)
        (Task.stream_sequence 0 2 FinishReason.NONE)).trace =
        [Event.stream_delta 0 "aa" FinishReason.NONE]) := by
  refine ⟨?_, ?_, by decide⟩
  · intro t st seq
    unfold on_sequence_stream
    simp only
    split
    · exact Or.inr rfl
    · exact Or.inl rfl
  · intro tokenizer st seq end_ finish_reason
    refine ⟨_, run_task_stream_trace tokenizer st seq end_ finish_reason, ?_, ?_⟩
    · intro h
      rw [if_pos h]
    · intro h
      rw [if_neg]
      rintro (h1 | h1)
      · exact h1 h.1
      · exact h1 h.2

/-- The decision of claim C14 on a sequence with nothing left to deliver: with finish reason
NONE the task delivers nothing, with finish reason STOP it delivers the empty delta. -/
theorem empty_delta_not_streamed_witness :
    (∃ delivered,
      (run_task letter_tokenizer (idle_state [1, 2] 2)
        (Task.stream_sequence 0 2 FinishReason.NONE)).trace =
        (idle_state [1, 2] 2).trace ++ delivered ∧ delivered = []) ∧
    (∃ delivered,
      (run_task letter_tokenizer (idle_state [1, 2] 2)
        (Task.stream_sequence 0 2 FinishReason.STOP)).trace =
        (idle_state [1, 2] 2).trace ++ delivered ∧
      delivered = [Event.stream_delta 0
        ((((idle_state [1, 2] 2).seqs 0).decode_delta_text 2 letter_tokenizer).1)
        FinishReason.STOP]) :=
  ⟨(empty_delta_not_streamed.2.1 letter_tokenizer (idle_state [1, 2] 2) 0 2
      FinishReason.NONE).elim fun d h => ⟨d, h.1, h.2.2 (by decide)⟩,
    (empty_delta_not_streamed.2.1 letter_tokenizer (idle_state [1, 2] 2) 0 2
      FinishReason.STOP).elim fun d h => ⟨d, h.1, h.2.1 (by decide)⟩⟩

end llm
